import Mathlib

/-!
Verification of the resume-tailor orchestration core against its
natural-language specification.  The Python sources are shallowly embedded:
pure functions become Lean functions over `List Char` / `String` / `Nat` / `ℚ`,
fallible code returns `Option` or `Except` (a `none` / `.error` models a raised
exception), and the stateful orchestrator is modelled by explicit state
passing.  All definitions are executable.
-/

namespace ResumeTailor

/-! ## Decimal rendering of naturals (Python f-string index interpolation) -/

/-- ASCII digit character for a digit value below ten. -/
def digitToChar (d : Nat) : Char := Char.ofNat (48 + d)

/-- Fuel-driven decimal printer (structural recursion so the kernel can
evaluate it). -/
def natToStrAux : Nat → Nat → List Char
  | 0, _ => []
  | f+1, n => if n < 10 then [digitToChar n] else natToStrAux f (n / 10) ++ [digitToChar (n % 10)]

/-- Decimal string of a natural number, as produced by Python string
interpolation of a non-negative integer. -/
def natToStr (n : Nat) : String := String.mk (natToStrAux (n + 1) n)

/-! ## Generic character helpers shared by the embedded modules -/

abbrev Chars := List Char

def isDigitC (c : Char) : Bool := c.isDigit

def isAlphaC (c : Char) : Bool := c.isAlpha

def isSpaceC (c : Char) : Bool := c.isWhitespace

/-- Python regex word character (ASCII model). -/
def isWordC (c : Char) : Bool := c.isAlphanum || c == '_'

/-- Python str.strip(): drop whitespace from both ends. -/
def stripChars (l : Chars) : Chars :=
  ((l.dropWhile isSpaceC).reverse.dropWhile isSpaceC).reverse

/-- Python str.lower(), character-wise (ASCII model). -/
def lowerChars (l : Chars) : Chars := l.map Char.toLower

/-! ## date_formatter.py -/

/-- Dash normalization from standardize_date: en dash, em dash and minus sign
become a plain hyphen. -/
def normDashes (l : Chars) : Chars :=
  l.map (fun c => if c == '–' || c == '—' || c == '−' then '-' else c)

/-- One step of re.sub on the word-boundary pattern for Current/current,
replacing each occurrence by Present.  `prev` is the character just before the
current scan position in the original string (for the left boundary). -/
def substCurrentAux : Nat → Option Char → Chars → Chars
  | 0, _, l => l
  | f+1, prev, l =>
    match l with
    | [] => []
    | c :: rest =>
      let isCur : Bool := (l.take 7 == "Current".data) || (l.take 7 == "current".data)
      let leftB : Bool := match prev with
        | none => true
        | some p => !(isWordC p)
      let rightB : Bool := match l.drop 7 with
        | [] => true
        | d :: _ => !(isWordC d)
      if isCur && leftB && rightB then
        "Present".data ++ substCurrentAux f (some 't') (l.drop 7)
      else
        c :: substCurrentAux f (some c) rest

def substCurrent (l : Chars) : Chars := substCurrentAux (l.length + 1) none l

/-- Maximal run of decimal digits that must have length exactly four
(regex fragment of four digits followed by a non-digit context). -/
def parseYear4 (l : Chars) : Option (Chars × Chars) :=
  let ds := l.takeWhile isDigitC
  if ds.length = 4 then some (ds, l.dropWhile isDigitC) else none

/-- Maximal run of decimal digits of length one or two (month number). -/
def parseMonthNum (l : Chars) : Option (Chars × Chars) :=
  let ds := l.takeWhile isDigitC
  if ds.length = 1 ∨ ds.length = 2 then some (ds, l.dropWhile isDigitC) else none

/-- Regex fragment: optional spaces, a hyphen, optional spaces. -/
def parseDash (l : Chars) : Option Chars :=
  match l.dropWhile isSpaceC with
  | '-' :: r2 => some (r2.dropWhile isSpaceC)
  | _ => none

/-- Regex fragment: one or more ASCII letters. -/
def parseLetters (l : Chars) : Option (Chars × Chars) :=
  let ls := l.takeWhile isAlphaC
  if ls.isEmpty then none else some (ls, l.dropWhile isAlphaC)

/-- Regex fragment: one or more whitespace characters. -/
def parseSpaces1 (l : Chars) : Option Chars :=
  if (l.takeWhile isSpaceC).isEmpty then none else some (l.dropWhile isSpaceC)

/-- Case-insensitive prefix match of the literal word present
(patterns 2 and 4 are unanchored at the right end). -/
def parsePresentCI (l : Chars) : Bool := lowerChars (l.take 7) == "present".data

/-- Pattern 1 of standardize_date: a four-digit year, a dash, a four-digit
year, end of string. -/
def pat1 (l : Chars) : Option (Chars × Chars) :=
  match parseYear4 l with
  | none => none
  | some (y1, r) =>
    match parseDash r with
    | none => none
    | some r2 =>
      match parseYear4 r2 with
      | none => none
      | some (y2, r3) => if r3.isEmpty then some (y1, y2) else none

/-- Pattern 2: a four-digit year, a dash, then the word present
case-insensitively (prefix match, trailing text ignored). -/
def pat2 (l : Chars) : Option Chars :=
  match parseYear4 l with
  | none => none
  | some (y, r) =>
    match parseDash r with
    | none => none
    | some r2 => if parsePresentCI r2 then some y else none

/-- Pattern 3: month name, spaces, year, dash, month name, spaces, year,
end of string. -/
def pat3 (l : Chars) : Option (Chars × Chars × Chars × Chars) :=
  match parseLetters l with
  | none => none
  | some (m1, r) =>
    match parseSpaces1 r with
    | none => none
    | some r2 =>
      match parseYear4 r2 with
      | none => none
      | some (y1, r3) =>
        match parseDash r3 with
        | none => none
        | some r4 =>
          match parseLetters r4 with
          | none => none
          | some (m2, r5) =>
            match parseSpaces1 r5 with
            | none => none
            | some r6 =>
              match parseYear4 r6 with
              | none => none
              | some (y2, r7) => if r7.isEmpty then some (m1, y1, m2, y2) else none

/-- Pattern 4: month name, spaces, year, dash, present (prefix match). -/
def pat4 (l : Chars) : Option (Chars × Chars) :=
  match parseLetters l with
  | none => none
  | some (m, r) =>
    match parseSpaces1 r with
    | none => none
    | some r2 =>
      match parseYear4 r2 with
      | none => none
      | some (y, r3) =>
        match parseDash r3 with
        | none => none
        | some r4 => if parsePresentCI r4 then some (m, y) else none

/-- Pattern 5: month number, slash, year, dash, month number, slash, year,
end of string. -/
def pat5 (l : Chars) : Option (Chars × Chars × Chars × Chars) :=
  match parseMonthNum l with
  | none => none
  | some (m1, r) =>
    match r with
    | '/' :: r1 =>
      match parseYear4 r1 with
      | none => none
      | some (y1, r2) =>
        match parseDash r2 with
        | none => none
        | some r3 =>
          match parseMonthNum r3 with
          | none => none
          | some (m2, r4) =>
            match r4 with
            | '/' :: r5 =>
              match parseYear4 r5 with
              | none => none
              | some (y2, r6) => if r6.isEmpty then some (m1, y1, m2, y2) else none
            | _ => none
    | _ => none

/-- Pattern 6: exactly four digits (a bare year). -/
def pat6 (l : Chars) : Bool := l.all isDigitC && l.length == 4

/-- Pattern 7: month name, spaces, year, end of string. -/
def pat7 (l : Chars) : Option (Chars × Chars) :=
  match parseLetters l with
  | none => none
  | some (m, r) =>
    match parseSpaces1 r with
    | none => none
    | some r2 =>
      match parseYear4 r2 with
      | none => none
      | some (y, r3) => if r3.isEmpty then some (m, y) else none

/-- The already-in-correct-format check of standardize_date: an abbreviated
month, a year, a spaced hyphen, and either another month-year or Present. -/
def correctFormat (l : Chars) : Bool :=
  match l with
  | c1 :: c2 :: c3 :: ' ' :: d1 :: d2 :: d3 :: d4 :: ' ' :: '-' :: ' ' :: rest =>
    c1.isUpper && c2.isLower && c3.isLower &&
    d1.isDigit && d2.isDigit && d3.isDigit && d4.isDigit &&
    (decide (rest = "Present".data) ||
      (match rest with
       | e1 :: e2 :: e3 :: ' ' :: f1 :: f2 :: f3 :: f4 :: [] =>
         e1.isUpper && e2.isLower && e3.isLower &&
         f1.isDigit && f2.isDigit && f3.isDigit && f4.isDigit
       | _ => false))
  | _ => false

/-- The MONTH_ABBREV dictionary lookup (keys are lowercase). -/
def monthAbbrevLookup (s : String) : Option String :=
  if s = "january" then some "Jan" else if s = "february" then some "Feb"
  else if s = "march" then some "Mar" else if s = "april" then some "Apr"
  else if s = "may" then some "May" else if s = "june" then some "Jun"
  else if s = "july" then some "Jul" else if s = "august" then some "Aug"
  else if s = "september" then some "Sep" else if s = "october" then some "Oct"
  else if s = "november" then some "Nov" else if s = "december" then some "Dec"
  else if s = "jan" then some "Jan" else if s = "feb" then some "Feb"
  else if s = "mar" then some "Mar" else if s = "apr" then some "Apr"
  else if s = "jun" then some "Jun" else if s = "jul" then some "Jul"
  else if s = "aug" then some "Aug" else if s = "sep" then some "Sep"
  else if s = "oct" then some "Oct" else if s = "nov" then some "Nov"
  else if s = "dec" then some "Dec" else none

/-- Python month[:3].capitalize(): first of the first three characters
upper-cased, the rest lower-cased. -/
def capitalize3 (m : Chars) : String :=
  match m.take 3 with
  | [] => ""
  | c :: r => String.mk (c.toUpper :: r.map Char.toLower)

/-- Month abbreviation with the dictionary fallback used by patterns 3, 4
and 7. -/
def monthAbbrevOf (m : Chars) : String :=
  match monthAbbrevLookup (String.mk (lowerChars m)) with
  | some a => a
  | none => capitalize3 m

/-- Python int() on a run of decimal digits. -/
def digitsToNat (ds : Chars) : Nat := ds.foldl (fun acc c => acc * 10 + (c.toNat - 48)) 0

/-- datetime(2000, m, 1).strftime of the abbreviated month name: defined for
month numbers one through twelve, raising ValueError otherwise (modelled as
none). -/
def strftimeMonth (m : Nat) : Option String :=
  if m = 1 then some "Jan" else if m = 2 then some "Feb"
  else if m = 3 then some "Mar" else if m = 4 then some "Apr"
  else if m = 5 then some "May" else if m = 6 then some "Jun"
  else if m = 7 then some "Jul" else if m = 8 then some "Aug"
  else if m = 9 then some "Sep" else if m = 10 then some "Oct"
  else if m = 11 then some "Nov" else if m = 12 then some "Dec"
  else none

/-- standardize_date from date_formatter.py.  A returned none models an
uncaught exception (the datetime constructor raising on an out-of-range month
in pattern 5). -/
def standardize_date (s : String) : Option String :=
  if s.isEmpty then some "" else
  let t0 := stripChars s.data
  if correctFormat t0 then some (String.mk t0) else
  let t := normDashes (substCurrent t0)
  match pat1 t with
  | some (y1, y2) => some ("Jan " ++ String.mk y1 ++ " - Dec " ++ String.mk y2)
  | none =>
  match pat2 t with
  | some y => some ("Jan " ++ String.mk y ++ " - Present")
  | none =>
  match pat3 t with
  | some (m1, y1, m2, y2) =>
      some (monthAbbrevOf m1 ++ " " ++ String.mk y1 ++ " - " ++
            monthAbbrevOf m2 ++ " " ++ String.mk y2)
  | none =>
  match pat4 t with
  | some (m, y) => some (monthAbbrevOf m ++ " " ++ String.mk y ++ " - Present")
  | none =>
  match pat5 t with
  | some (m1, y1, m2, y2) =>
      match strftimeMonth (digitsToNat m1), strftimeMonth (digitsToNat m2) with
      | some a, some b =>
          some (a ++ " " ++ String.mk y1 ++ " - " ++ b ++ " " ++ String.mk y2)
      | _, _ => none
  | none =>
  if pat6 t then some (String.mk t) else
  match pat7 t with
  | some (m, y) => some (monthAbbrevOf m ++ " " ++ String.mk y)
  | none => some (String.mk t)

/-! ## difflib.SequenceMatcher, as used by deduplication_agent.py

The agent computes SequenceMatcher(None, t1, t2).ratio() on lower-cased,
stripped texts.  We embed the matcher faithfully: the b2j index with the
autojunk heuristic (popular elements of a second sequence of length at least
200 are junked), find_longest_match with its four extension loops, the
divide-and-conquer block collection, and the ratio 2*M/T computed in ℚ. -/

/-- Autojunk predicate of SequenceMatcher with isjunk = None: an element is
junk iff the second sequence has length at least 200 and the element occurs
more than len(b)/100 + 1 times in it. -/
def bJunk (b : Chars) (c : Char) : Bool :=
  if b.length < 200 then false
  else decide (b.length / 100 + 1 < b.count c)

/-- The b2j index: ascending positions of a character in b, with junked
characters mapped to the empty list. -/
def b2j (b : Chars) (c : Char) : List Nat :=
  if bJunk b c then []
  else (List.range b.length).filter (fun j => b.getD j ' ' == c)

/-- Best-match triple (besti, bestj, bestsize) of find_longest_match. -/
abbrev FlmBest := Nat × Nat × Nat

/-- Inner loop body of find_longest_match: process one candidate position j of
the current row i.  mOld is j2len of the previous row; the state carries the
new row map and the best triple. -/
def flmRowStep (mOld : Nat → Nat) (i : Nat) (st : (Nat → Nat) × FlmBest) (j : Nat) :
    (Nat → Nat) × FlmBest :=
  let nm := st.1
  let best := st.2
  let k := (if j = 0 then 0 else mOld (j - 1)) + 1
  let nm2 := fun x => if x = j then k else nm x
  if best.2.2 < k then (nm2, (i + 1 - k, j + 1 - k, k)) else (nm2, best)

/-- Candidate j positions for row i: the b2j list of a[i], restricted to
[blo, bhi) (the continue and break of the Python loop over an ascending
list). -/
def flmRowJs (a b : Chars) (blo bhi i : Nat) : List Nat :=
  ((b2j b (a.getD i ' ')).filter (fun j => decide (blo ≤ j))).takeWhile (fun j => decide (j < bhi))

/-- Main dynamic-programming loop of find_longest_match over the rows
[alo, ahi). -/
def flmRows (a b : Chars) (blo bhi : Nat) (rows : List Nat)
    (init : (Nat → Nat) × FlmBest) : (Nat → Nat) × FlmBest :=
  rows.foldl (fun st i => (flmRowJs a b blo bhi i).foldl (flmRowStep st.1 i) ((fun _ => 0), st.2)) init

/-- Leftward extension loop (junkReq selects the non-junk or the junk
variant), fuel-driven so the kernel can evaluate it. -/
def extLeft (a b : Chars) (alo blo : Nat) (junkReq : Bool) : Nat → FlmBest → FlmBest
  | 0, best => best
  | f+1, (bi, bj, bs) =>
    if alo < bi ∧ blo < bj ∧ bJunk b (b.getD (bj - 1) ' ') = junkReq ∧
        a.getD (bi - 1) ' ' = b.getD (bj - 1) ' ' then
      extLeft a b alo blo junkReq f (bi - 1, bj - 1, bs + 1)
    else (bi, bj, bs)

/-- Rightward extension loop. -/
def extRight (a b : Chars) (ahi bhi : Nat) (junkReq : Bool) : Nat → FlmBest → FlmBest
  | 0, best => best
  | f+1, (bi, bj, bs) =>
    if bi + bs < ahi ∧ bj + bs < bhi ∧ bJunk b (b.getD (bj + bs) ' ') = junkReq ∧
        a.getD (bi + bs) ' ' = b.getD (bj + bs) ' ' then
      extRight a b ahi bhi junkReq f (bi, bj, bs + 1)
    else (bi, bj, bs)

/-- find_longest_match of SequenceMatcher on the slice a[alo:ahi] against
b[blo:bhi]: the DP loop, then the non-junk and junk extension loops in the
order of the source. -/
def findLongestMatch (a b : Chars) (alo ahi blo bhi : Nat) : FlmBest :=
  let best := (flmRows a b blo bhi (List.range' alo (ahi - alo)) ((fun _ => 0), (alo, blo, 0))).2
  let best := extLeft a b alo blo false (best.1 + 1) best
  let best := extRight a b ahi bhi false (ahi + 1) best
  let best := extLeft a b alo blo true (best.1 + 1) best
  let best := extRight a b ahi bhi true (ahi + 1) best
  best

/-- Total size of the matching blocks collected by get_matching_blocks
(queue-based divide and conquer, expressed as fuel-driven recursion; the
fuel exceeds the recursion depth, which is bounded by the a-interval
length). -/
def matchingSizeAux (a b : Chars) : Nat → Nat → Nat → Nat → Nat → Nat
  | 0, _, _, _, _ => 0
  | f+1, alo, ahi, blo, bhi =>
    let t := findLongestMatch a b alo ahi blo bhi
    if t.2.2 = 0 then 0
    else t.2.2 + matchingSizeAux a b f alo t.1 blo t.2.1 +
         matchingSizeAux a b f (t.1 + t.2.2) ahi (t.2.1 + t.2.2) bhi

/-- Sum of the sizes of all matching blocks of the two sequences. -/
def totalMatches (a b : Chars) : Nat := matchingSizeAux a b (a.length + 1) 0 a.length 0 b.length

/-- SequenceMatcher.ratio(): 2*M/T in exact rational arithmetic, with the
1.0 convention for two empty sequences. -/
def seqRatio (a b : Chars) : ℚ :=
  if a.length + b.length = 0 then 1
  else mkRat (2 * (totalMatches a b : Int)) (a.length + b.length)

/-- DeduplicationAgent._calculate_similarity: lower-case and strip both texts,
then the SequenceMatcher ratio. -/
def calculate_similarity (t1 t2 : String) : ℚ :=
  seqRatio (stripChars (lowerChars t1.data)) (stripChars (lowerChars t2.data))

/-! ## deduplication_agent.py -/

/-- An achievement value in the selection: the Python code accepts either a
plain string or a dict carrying a text field. -/
inductive AchValue
  | strVal (s : String)
  | objVal (text : String)
deriving DecidableEq, Repr

/-- The text the extractor reads from an achievement value. -/
def achText : AchValue → String
  | .strVal s => s
  | .objVal t => t

/-- A selected experience as read by the deduplication agent (absent dict
keys are modelled by none / empty lists, matching the .get defaults). -/
structure ExpSelItem where
  source_id : Option String
  key_achievements : List AchValue
  persona_achievements : List AchValue
deriving DecidableEq, Repr

/-- The structured challenge/solution/impact record of a project.  A none
field models an absent or None entry; the extractor also skips empty
strings (Python truthiness). -/
structure StructuredResponse where
  challenge : Option String
  solution : Option String
  impact : Option String
deriving DecidableEq, Repr

/-- A selected project as read by the deduplication agent. -/
structure ProjSelItem where
  source_id : Option String
  key_achievements : List AchValue
  structured_response : Option StructuredResponse
deriving DecidableEq, Repr

/-- A selected work sample as read by the deduplication agent. -/
structure WorkSampleItem where
  source_id : Option String
  description : String
deriving DecidableEq, Repr

/-- A duplicate-report detail entry (the similarity is kept as the raw
rational; the source renders it as a percentage string for display). -/
structure DupDetail where
  kept : String
  removed : List String
  similarity : ℚ
deriving DecidableEq, Repr

/-- The deduplication_summary metadata added by deduplicate. -/
structure DedupSummary where
  duplicates_found : Nat
  duplicates_removed : Nat
  duplicate_details : List DupDetail
deriving DecidableEq, Repr

/-- The content-selection record processed by the deduplication agent.  The
fields the agent never inspects (skills, publications, education, contact)
are type parameters, mirroring that the Python dict carries arbitrary values
there. -/
structure ContentSelectionD (SkillsT PubsT EduT ContactT : Type) where
  selected_experiences : List ExpSelItem
  selected_projects : List ProjSelItem
  selected_work_samples : List WorkSampleItem
  selected_skills : SkillsT
  selected_publications : PubsT
  selected_education : EduT
  contact_info : ContactT
  deduplication_summary : Option DedupSummary
deriving DecidableEq, Repr

/-- The index tuple attached to an extracted text: (i, j) for a key
achievement, (i, j, persona) for a persona achievement, (i, key) for a
structured-response field, (i,) for a work sample. -/
inductive IdxKey
  | ach (i j : Nat)
  | persona (i j : Nat)
  | structured (i : Nat) (key : String)
  | sample (i : Nat)
deriving DecidableEq, Repr

/-- First component of the index tuple. -/
def idxFst : IdxKey → Nat
  | .ach i _ => i
  | .persona i _ => i
  | .structured i _ => i
  | .sample i => i

/-- An extracted text with its source tracking, as built by
_extract_all_texts. -/
structure TextItem where
  text : String
  location : String
  sectionName : String
  priority : Nat
  source_id : String
  index : IdxKey
deriving DecidableEq, Repr

instance : Inhabited TextItem := ⟨⟨"", "", "", 0, "", .sample 0⟩⟩

/-- Default source id fallback of the extractor (for example exp_3). -/
def sourceIdOr (o : Option String) (fallback : String) : String :=
  match o with
  | some s => s
  | none => fallback

/-- The experience texts of _extract_all_texts (priority 1). -/
def extractExpTexts (exps : List ExpSelItem) : List TextItem :=
  exps.enum.flatMap (fun p =>
    let i := p.1
    let exp := p.2
    let expId := sourceIdOr exp.source_id ("exp_" ++ natToStr i)
    (exp.key_achievements.enum.map (fun q =>
      TextItem.mk (achText q.2)
        ("experience[" ++ natToStr i ++ "].key_achievements[" ++ natToStr q.1 ++ "]")
        "experience" 1 expId (IdxKey.ach i q.1)))
    ++ (exp.persona_achievements.enum.map (fun q =>
      TextItem.mk (achText q.2)
        ("experience[" ++ natToStr i ++ "].persona_achievements[" ++ natToStr q.1 ++ "]")
        "experience" 1 expId (IdxKey.persona i q.1))))

/-- One optional structured-response field of a project, skipped when the
value is absent or an empty string (Python truthiness check). -/
def structuredField (i : Nat) (projId : String) (key : String) (v : Option String) :
    List TextItem :=
  match v with
  | none => []
  | some s =>
    if s = "" then []
    else [TextItem.mk s ("project[" ++ natToStr i ++ "].structured_response." ++ key)
      "project" 2 projId (IdxKey.structured i key)]

/-- The project texts of _extract_all_texts (priority 2). -/
def extractProjTexts (projs : List ProjSelItem) : List TextItem :=
  projs.enum.flatMap (fun p =>
    let i := p.1
    let proj := p.2
    let projId := sourceIdOr proj.source_id ("proj_" ++ natToStr i)
    (proj.key_achievements.enum.map (fun q =>
      TextItem.mk (achText q.2)
        ("project[" ++ natToStr i ++ "].key_achievements[" ++ natToStr q.1 ++ "]")
        "project" 2 projId (IdxKey.ach i q.1)))
    ++ (let sr := match proj.structured_response with
          | none => StructuredResponse.mk none none none
          | some sr => sr
        structuredField i projId "challenge" sr.challenge
        ++ structuredField i projId "solution" sr.solution
        ++ structuredField i projId "impact" sr.impact))

/-- The work-sample texts of _extract_all_texts (priority 3). -/
def extractSampleTexts (samples : List WorkSampleItem) : List TextItem :=
  samples.enum.map (fun p =>
    let i := p.1
    let sample := p.2
    TextItem.mk sample.description ("work_sample[" ++ natToStr i ++ "].description")
      "work_sample" 3 (sourceIdOr sample.source_id ("sample_" ++ natToStr i))
      (IdxKey.sample i))

/-- All candidate texts before the length filter. -/
def rawTexts {SkillsT PubsT EduT ContactT : Type}
    (sel : ContentSelectionD SkillsT PubsT EduT ContactT) : List TextItem :=
  extractExpTexts sel.selected_experiences
  ++ extractProjTexts sel.selected_projects
  ++ extractSampleTexts sel.selected_work_samples

/-- _extract_all_texts: the extraction followed by the final filter keeping
texts that are truthy and of length strictly greater than twenty. -/
def extract_all_texts {SkillsT PubsT EduT ContactT : Type}
    (sel : ContentSelectionD SkillsT PubsT EduT ContactT) : List TextItem :=
  (rawTexts sel).filter (fun t => (t.text != "") && decide (20 < t.text.length))

/-- A duplicate group of _find_duplicates. -/
structure DupGroup where
  kept : TextItem
  removed : List TextItem
  similarity : ℚ
deriving DecidableEq, Repr

/-- The sort comparator of _find_duplicates: ascending priority, and for
equal priorities descending text length (Python key (priority, -len)). -/
def dupSortLE (x y : TextItem) : Bool :=
  decide (x.priority < y.priority) ||
  (decide (x.priority = y.priority) && decide (y.text.length ≤ x.text.length))

/-- Maximum of a list of rationals with a head start (Python max on a
non-empty list). -/
def maxQ : List ℚ → ℚ
  | [] => 0
  | x :: r => r.foldl max x

/-- Stable merge of two lists (ties taken from the left list), fuel-driven
so the kernel can evaluate it. -/
def mergeStable {α : Type} (le : α → α → Bool) : Nat → List α → List α → List α
  | 0, l, r => l ++ r
  | _+1, [], r => r
  | _+1, l, [] => l
  | f+1, a :: l, b :: r =>
    if le a b then a :: mergeStable le f l (b :: r)
    else b :: mergeStable le f (a :: l) r

/-- Stable merge sort, fuel-driven: the model of Python list.sort (which is
specified as a stable sort by key). -/
def stableSortAux {α : Type} (le : α → α → Bool) : Nat → List α → List α
  | 0, l => l
  | f+1, l =>
    if l.length ≤ 1 then l
    else
      mergeStable le (l.length)
        (stableSortAux le f (l.take (l.length / 2)))
        (stableSortAux le f (l.drop (l.length / 2)))

/-- Python list.sort with a comparator derived from a key. -/
def stableSort {α : Type} (le : α → α → Bool) (l : List α) : List α :=
  stableSortAux le l.length l

/-- Worker of _find_duplicates: scan the indices in order, skipping processed
ones; the matches of row i are all unprocessed j with similarity at or above
the threshold; a non-empty match set forms a group sorted by the comparator,
keeping the head. -/
def find_duplicates_aux (texts : List TextItem) (thr : ℚ) :
    List Nat → List Nat → List DupGroup
  | [], _ => []
  | i :: rest, processed =>
    if i ∈ processed then find_duplicates_aux texts thr rest processed
    else
      let js := (List.range texts.length).filter (fun j =>
        decide (j ≠ i) && decide (j ∉ processed) &&
        decide (thr ≤ calculate_similarity (texts.getD i default).text (texts.getD j default).text))
      if js.isEmpty then find_duplicates_aux texts thr rest processed
      else
        let items := (texts.getD i default) :: js.map (fun j => texts.getD j default)
        let sorted := stableSort dupSortLE items
        let sims := js.map (fun j =>
          calculate_similarity (texts.getD i default).text (texts.getD j default).text)
        DupGroup.mk (sorted.headD default) sorted.tail (maxQ sims)
          :: find_duplicates_aux texts thr rest (processed ++ js ++ [i])

/-- _find_duplicates over the whole extracted list. -/
def find_duplicates (texts : List TextItem) (thr : ℚ) : List DupGroup :=
  find_duplicates_aux texts thr (List.range texts.length) []

/-- The j component of an experience removal index (the Python filter on
tuple length two). -/
def expAchRemovalJ : IdxKey → Option Nat
  | .ach _ j => some j
  | _ => none

/-- The j component of a persona removal index (tuple length three). -/
def personaRemovalJ : IdxKey → Option Nat
  | .persona _ j => some j
  | _ => none

/-- The j component of a project removal index (second component an int:
both plain and persona tuples qualify, structured keys do not). -/
def projAchRemovalJ : IdxKey → Option Nat
  | .ach _ j => some j
  | .persona _ j => some j
  | _ => none

/-- _remove_from_experiences: strip the removed achievement indices from each
experience, keeping an experience only if it still has achievements. -/
def remove_from_experiences (exps : List ExpSelItem) (removals : List IdxKey) :
    List ExpSelItem :=
  (exps.enum.filterMap (fun p =>
    let i := p.1
    let exp := p.2
    let expRem := removals.filter (fun r => idxFst r = i)
    let expCopy :=
      if expRem.isEmpty then exp
      else
        let achJs := expRem.filterMap expAchRemovalJ
        let perJs := expRem.filterMap personaRemovalJ
        { exp with
          key_achievements := (exp.key_achievements.enum.filter
            (fun q => decide (q.1 ∉ achJs))).map (fun q => q.2),
          persona_achievements := (exp.persona_achievements.enum.filter
            (fun q => decide (q.1 ∉ perJs))).map (fun q => q.2) }
    if expCopy.key_achievements.isEmpty && expCopy.persona_achievements.isEmpty
    then none else some expCopy))

/-- _remove_from_projects: strip removed key-achievement indices (structured
fields are never removed), keeping a project if it still has key achievements
or a structured response. -/
def remove_from_projects (projs : List ProjSelItem) (removals : List IdxKey) :
    List ProjSelItem :=
  (projs.enum.filterMap (fun p =>
    let i := p.1
    let proj := p.2
    let projRem := removals.filter (fun r => idxFst r = i)
    let projCopy :=
      if projRem.isEmpty then proj
      else
        let achJs := projRem.filterMap projAchRemovalJ
        { proj with
          key_achievements := (proj.key_achievements.enum.filter
            (fun q => decide (q.1 ∉ achJs))).map (fun q => q.2) }
    if projCopy.key_achievements.isEmpty && projCopy.structured_response.isNone
    then none else some projCopy))

/-- _remove_from_work_samples: drop whole samples whose index was flagged. -/
def remove_from_work_samples (samples : List WorkSampleItem) (removals : List IdxKey) :
    List WorkSampleItem :=
  let firsts := removals.map idxFst
  (samples.enum.filter (fun p => decide (p.1 ∉ firsts))).map (fun p => p.2)

/-- _remove_duplicates: apply the removals per section, each section updated
only when it has removals. -/
def remove_duplicates {SkillsT PubsT EduT ContactT : Type}
    (sel : ContentSelectionD SkillsT PubsT EduT ContactT) (dups : List DupGroup) :
    ContentSelectionD SkillsT PubsT EduT ContactT :=
  let toRem := dups.flatMap (fun g => g.removed)
  let expRem := (toRem.filter (fun t => t.sectionName == "experience")).map (fun t => t.index)
  let projRem := (toRem.filter (fun t => t.sectionName == "project")).map (fun t => t.index)
  let sampRem := (toRem.filter (fun t => t.sectionName == "work_sample")).map (fun t => t.index)
  { sel with
    selected_experiences :=
      if expRem.isEmpty then sel.selected_experiences
      else remove_from_experiences sel.selected_experiences expRem,
    selected_projects :=
      if projRem.isEmpty then sel.selected_projects
      else remove_from_projects sel.selected_projects projRem,
    selected_work_samples :=
      if sampRem.isEmpty then sel.selected_work_samples
      else remove_from_work_samples sel.selected_work_samples sampRem }

/-- Total number of removed items across the duplicate groups. -/
def countRemovals (dups : List DupGroup) : Nat :=
  (dups.map (fun g => g.removed.length)).sum

/-- DeduplicationAgent.deduplicate: extract, find duplicates, and either
return the selection unchanged (no duplicates) or apply the removals and
attach the deduplication_summary metadata. -/
def deduplicate {SkillsT PubsT EduT ContactT : Type} (thr : ℚ)
    (sel : ContentSelectionD SkillsT PubsT EduT ContactT) :
    ContentSelectionD SkillsT PubsT EduT ContactT :=
  let texts := extract_all_texts sel
  let dups := find_duplicates texts thr
  if dups.isEmpty then sel
  else
    let dd := remove_duplicates sel dups
    { dd with deduplication_summary := some (DedupSummary.mk dups.length (countRemovals dups)
        (dups.map (fun g =>
          DupDetail.mk g.kept.location (g.removed.map (fun r => r.location)) g.similarity))) }

/-! ## content_aggregator.py and parallel_content_selector.py -/

/-- Covered-requirement lists inside a selector's selection_summary coverage
record (absent keys default to empty lists). -/
structure CoverageLists where
  technical_requirements_covered : List String
  leadership_requirements_covered : List String
  domain_requirements_covered : List String
deriving DecidableEq, Repr

/-- Output dict of the experience selector as read downstream: the selected
items, the optional selection_notes and the optional selection_summary
coverage. -/
structure ExpSelOut (ExpT : Type) where
  selected_experiences : List ExpT
  selection_notes : Option String
  coverage : Option CoverageLists
deriving DecidableEq, Repr

/-- Output dict of the project selector. -/
structure ProjSelOut (ProjT : Type) where
  selected_projects : List ProjT
  selection_notes : Option String
  coverage : Option CoverageLists
deriving DecidableEq, Repr

/-- Output dict of the skills selector (skills organized by category). -/
structure SkillsSelOut where
  selected_skills : List (String × List String)
  selection_notes : Option String
deriving DecidableEq, Repr

/-- Output dict of the publication selector. -/
structure PubSelOut (PubT : Type) where
  selected_publications : List PubT
deriving DecidableEq, Repr

/-- Output dict of the work-sample selector. -/
structure SampleSelOut (SamT : Type) where
  selected_work_samples : List SamT
deriving DecidableEq, Repr

/-- The coverage analysis assembled by ContentAggregator (the total and
percentage are the hard-coded estimates of the source). -/
structure CoverageAnalysis where
  must_have_requirements_covered : Nat
  must_have_requirements_total : Nat
  coverage_percentage : Nat
  technical_skills_covered : List String
  leadership_skills_covered : List String
  domain_expertise_covered : List String
  strongest_matches : List String
deriving DecidableEq, Repr

/-- The unified selection built by ContentAggregator.aggregate. -/
structure AggregatedSelection (ExpT ProjT PubT SamT EduT ContactT : Type) where
  selected_experiences : List ExpT
  selected_projects : List ProjT
  selected_skills : List (String × List String)
  selected_publications : List PubT
  selected_work_samples : List SamT
  selected_education : EduT
  contact_info : ContactT
  selection_strategy : String
  coverage_analysis : CoverageAnalysis
deriving DecidableEq, Repr

/-- Python str given an optional notes field (.get default empty string). -/
def notesOr (o : Option String) : String :=
  match o with
  | none => ""
  | some s => s

/-- ContentAggregator._build_selection_strategy. -/
def build_selection_strategy (expNotes projNotes skillsNotes : Option String) : String :=
  "Parallel selection strategy: " ++
  "Experiences - " ++ notesOr expNotes ++ ". " ++
  "Projects - " ++ notesOr projNotes ++ ". " ++
  "Skills - " ++ notesOr skillsNotes ++ "."

/-- Coverage lists with the empty default. -/
def coverageOr (o : Option CoverageLists) : CoverageLists :=
  match o with
  | none => CoverageLists.mk [] [] []
  | some c => c

/-- ContentAggregator._build_coverage_analysis (list(set(..)) modelled by
dedup keeping first occurrences; only list contents matter downstream). -/
def build_coverage_analysis (expCov projCov : Option CoverageLists) : CoverageAnalysis :=
  let e := coverageOr expCov
  let p := coverageOr projCov
  let allTechnical := (e.technical_requirements_covered ++ p.technical_requirements_covered).dedup
  let allLeadership := e.leadership_requirements_covered.dedup
  let allDomain := (e.domain_requirements_covered ++ p.domain_requirements_covered).dedup
  CoverageAnalysis.mk (allTechnical.length + allLeadership.length) 15 85
    allTechnical allLeadership allDomain (allTechnical.take 5 ++ allLeadership.take 3)

/-- ContentAggregator.aggregate: a pure merge of the five selector outputs
plus the database contact info and education entries. -/
def aggregate {ExpT ProjT PubT SamT EduT ContactT : Type}
    (expS : ExpSelOut ExpT) (projS : ProjSelOut ProjT) (skillsS : SkillsSelOut)
    (pubS : PubSelOut PubT) (sampleS : SampleSelOut SamT)
    (contact : ContactT) (education : EduT) :
    AggregatedSelection ExpT ProjT PubT SamT EduT ContactT :=
  AggregatedSelection.mk
    expS.selected_experiences projS.selected_projects skillsS.selected_skills
    pubS.selected_publications sampleS.selected_work_samples education contact
    (build_selection_strategy expS.selection_notes projS.selection_notes skillsS.selection_notes)
    (build_coverage_analysis expS.coverage projS.coverage)

/-- The category-appropriate empty experience result produced at the task
boundary when the selector raises. -/
def expErrorResult {ExpT : Type} (e : String) : ExpSelOut ExpT :=
  ExpSelOut.mk [] (some ("Error: " ++ e)) none

def projErrorResult {ProjT : Type} (e : String) : ProjSelOut ProjT :=
  ProjSelOut.mk [] (some ("Error: " ++ e)) none

def skillsErrorResult (e : String) : SkillsSelOut :=
  SkillsSelOut.mk [] (some ("Error: " ++ e))

def pubErrorResult {PubT : Type} (_e : String) : PubSelOut PubT :=
  PubSelOut.mk []

def sampleErrorResult {SamT : Type} (_e : String) : SampleSelOut SamT :=
  SampleSelOut.mk []

/-- The try/except of a task boundary: the payload on success, the
category-appropriate error fallback on an exception. -/
def okOr {P : Type} (task : Except String P) (onError : String → P) : P :=
  match task with
  | .ok p => p
  | .error e => onError e

/-- A task boundary wrapper such as _select_experiences_async: the underlying
selector call either returns a payload or raises; the coroutine catches the
exception and returns the empty result annotated with the error text, so the
gathered slot is never an exception. -/
def runCategoryTask {P : Type} (task : Except String P) (onError : String → P) :
    Except String P :=
  Except.ok (okOr task onError)

/-- The gathered five slots of the fan-out (asyncio.gather with
return_exceptions true). -/
structure SelectAllResults (ExpT ProjT PubT SamT : Type) where
  expRes : ExpSelOut ExpT
  projRes : ProjSelOut ProjT
  skillsRes : SkillsSelOut
  pubRes : PubSelOut PubT
  sampleRes : SampleSelOut SamT
deriving DecidableEq, Repr

/-- The list view of the five gathered results (they are five slots). -/
def resultsLength {ExpT ProjT PubT SamT : Type}
    (_ : SelectAllResults ExpT ProjT PubT SamT) : Nat := 5

/-- The fan-out of select_async: run the five tasks, each isolated at its
boundary, then _check_for_errors (which re-raises only if a gathered slot is
an exception object). -/
def select_fanout {ExpT ProjT PubT SamT : Type}
    (t1 : Except String (ExpSelOut ExpT)) (t2 : Except String (ProjSelOut ProjT))
    (t3 : Except String SkillsSelOut) (t4 : Except String (PubSelOut PubT))
    (t5 : Except String (SampleSelOut SamT)) :
    Except String (SelectAllResults ExpT ProjT PubT SamT) :=
  match runCategoryTask t1 expErrorResult, runCategoryTask t2 projErrorResult,
        runCategoryTask t3 skillsErrorResult, runCategoryTask t4 pubErrorResult,
        runCategoryTask t5 sampleErrorResult with
  | .ok r1, .ok r2, .ok r3, .ok r4, .ok r5 =>
      Except.ok (SelectAllResults.mk r1 r2 r3 r4 r5)
  | .error e, _, _, _, _ => Except.error e
  | _, .error e, _, _, _ => Except.error e
  | _, _, .error e, _, _ => Except.error e
  | _, _, _, .error e, _ => Except.error e
  | _, _, _, _, .error e => Except.error e

/-- Number of failing tasks among the five. -/
def errCount {ExpT ProjT PubT SamT : Type}
    (t1 : Except String (ExpSelOut ExpT)) (t2 : Except String (ProjSelOut ProjT))
    (t3 : Except String SkillsSelOut) (t4 : Except String (PubSelOut PubT))
    (t5 : Except String (SampleSelOut SamT)) : Nat :=
  (if t1.isOk then 0 else 1) + (if t2.isOk then 0 else 1) + (if t3.isOk then 0 else 1) +
  (if t4.isOk then 0 else 1) + (if t5.isOk then 0 else 1)

/-! ## fabrication_validator.py (perform_structural_validation) -/

/-- A draft achievement inside an experience entry: the validator only
inspects dict-valued achievements. -/
inductive DraftAch
  | plain (s : String)
  | obj (source_id : Option String)
deriving DecidableEq, Repr

/-- A draft experience entry as read by the structural validator. -/
structure DraftExpEntry where
  source_id : Option String
  achievements : List DraftAch
deriving DecidableEq, Repr

/-- A draft bulleted-project entry. -/
structure DraftProjEntry where
  source_id : Option String
deriving DecidableEq, Repr

/-- A draft entry of a category the structural validator never visits
(work samples, publications, education). -/
structure DraftOtherEntry where
  source_id : Option String
deriving DecidableEq, Repr

/-- The resume draft as relevant to structural validation. -/
structure ResumeDraftD where
  experience : List DraftExpEntry
  bulleted_projects : List DraftProjEntry
  work_samples : List DraftOtherEntry
  publications : List DraftOtherEntry
  education : List DraftOtherEntry
deriving DecidableEq, Repr

/-- A selection item carrying the pydantic-required source_id. -/
structure ValSelItem where
  source_id : String
deriving DecidableEq, Repr

/-- The content selection as read by the structural validator. -/
structure ValSelection where
  selected_experiences : List ValSelItem
  selected_projects : List ValSelItem
  selected_work_samples : List ValSelItem
deriving DecidableEq, Repr

/-- A validation issue record. -/
structure ValidationIssue where
  severity : String
  type : String
  location : String
  message : String
deriving DecidableEq, Repr

/-- Python falsiness of the optional source_id (None or empty string). -/
def missingSrc : Option String → Bool
  | none => true
  | some s => s == ""

/-- The valid source-id set built by perform_structural_validation: the ids
of the selection's experiences and projects. -/
def valid_sources (sel : ValSelection) : List String :=
  sel.selected_experiences.map (fun e => e.source_id)
  ++ sel.selected_projects.map (fun p => p.source_id)

/-- Location path of draft experience entry i. -/
def expLoc (i : Nat) : String := "experience[" ++ natToStr i ++ "]"

/-- Location path of achievement j inside draft experience entry i. -/
def expAchLoc (i j : Nat) : String :=
  "experience[" ++ natToStr i ++ "].achievements[" ++ natToStr j ++ "]"

/-- Location path of draft bulleted-project entry i. -/
def projLoc (i : Nat) : String := "bulleted_projects[" ++ natToStr i ++ "]"

/-- The entry-level source_id check shared by experiences and projects:
missing yields the critical missing_source_id issue, a source id outside the
valid set yields critical invalid_source_id, a valid one yields nothing. -/
def headIssues (V : List String) (loc : String) (noun : String) (src : Option String) :
    List ValidationIssue :=
  if missingSrc src then
    [ValidationIssue.mk "critical" "missing_source_id" loc
      (noun ++ " missing source_id field")]
  else
    match src with
    | some s =>
      if s ∈ V then []
      else [ValidationIssue.mk "critical" "invalid_source_id" loc ("Invalid source_id: " ++ s)]
    | none => []

/-- The per-achievement check inside a draft experience entry (only
dict-valued achievements are inspected). -/
def expAchIssue (V : List String) (i j : Nat) : DraftAch → List ValidationIssue
  | .plain _ => []
  | .obj src => headIssues V (expAchLoc i j) "Achievement" src

/-- Issues for one draft experience entry: the entry-level check followed by
the per-achievement checks on dict achievements. -/
def expEntryIssues (V : List String) (i : Nat) (e : DraftExpEntry) : List ValidationIssue :=
  headIssues V (expLoc i) "Experience" e.source_id
  ++ (e.achievements.enum.flatMap (fun q => expAchIssue V i q.1 q.2))

/-- Issues for one draft bulleted-project entry. -/
def projEntryIssues (V : List String) (i : Nat) (p : DraftProjEntry) : List ValidationIssue :=
  headIssues V (projLoc i) "Project" p.source_id

/-- FabricationValidator.perform_structural_validation. -/
def perform_structural_validation (d : ResumeDraftD) (sel : ValSelection) :
    List ValidationIssue :=
  let V := valid_sources sel
  (d.experience.enum.flatMap (fun p => expEntryIssues V p.1 p.2))
  ++ (d.bulleted_projects.enum.flatMap (fun p => projEntryIssues V p.1 p.2))

/-! ## state_manager.py and the orchestrators -/

/-- The pipeline state as relevant to the claims: the stage bookkeeping, the
error log, and the append-only per-agent output snapshots (newest last,
mirroring the timestamped files; load_agent_output returns the newest). -/
structure PipelineStateD (JA CS RD : Type) where
  current_stage : String
  completed_stages : List String
  errors : List String
  job_analyzer_outputs : List JA
  content_selector_outputs : List CS
  resume_drafter_outputs : List RD
  validator_outputs : List Bool
deriving DecidableEq, Repr

/-- StateManager.can_skip_stage: a stage can be skipped iff it is already in
completed_stages. -/
def can_skip_stage {JA CS RD : Type} (st : PipelineStateD JA CS RD) (stage : String) : Bool :=
  stage ∈ st.completed_stages

/-- save_agent_output stage bookkeeping: set current_stage and append the
stage to completed_stages if absent. -/
def recordStage (completed : List String) (stage : String) : List String :=
  if stage ∈ completed then completed else completed ++ [stage]

/-- StateManager.set_job_analysis (save_agent_output for job_analyzer). -/
def set_job_analysis {JA CS RD : Type} (st : PipelineStateD JA CS RD) (ja : JA) :
    PipelineStateD JA CS RD :=
  { st with job_analyzer_outputs := st.job_analyzer_outputs ++ [ja],
            current_stage := "job_analysis_complete",
            completed_stages := recordStage st.completed_stages "job_analysis_complete" }

/-- StateManager.set_content_selection. -/
def set_content_selection {JA CS RD : Type} (st : PipelineStateD JA CS RD) (cs : CS) :
    PipelineStateD JA CS RD :=
  { st with content_selector_outputs := st.content_selector_outputs ++ [cs],
            current_stage := "content_selection_complete",
            completed_stages := recordStage st.completed_stages "content_selection_complete" }

/-- StateManager.set_resume_draft. -/
def set_resume_draft {JA CS RD : Type} (st : PipelineStateD JA CS RD) (d : RD) :
    PipelineStateD JA CS RD :=
  { st with resume_drafter_outputs := st.resume_drafter_outputs ++ [d],
            current_stage := "draft_complete",
            completed_stages := recordStage st.completed_stages "draft_complete" }

/-- StateManager.set_validation_result (the recorded value is the is_valid
verdict). -/
def set_validation_result {JA CS RD : Type} (st : PipelineStateD JA CS RD) (v : Bool) :
    PipelineStateD JA CS RD :=
  { st with validator_outputs := st.validator_outputs ++ [v],
            current_stage := "validation_complete",
            completed_stages := recordStage st.completed_stages "validation_complete" }

/-- StateManager.add_error. -/
def add_error {JA CS RD : Type} (st : PipelineStateD JA CS RD) (e : String) :
    PipelineStateD JA CS RD :=
  { st with errors := st.errors ++ [e] }

/-- run_phase1 of orchestrator_enhanced: the two skip-checked steps.  The
generation capabilities are the analyze and select parameters; the returned
number counts how many capability calls were made.  A none models the crash
when a skipped step has no recorded output to reload. -/
def run_phase1 {JA CS RD : Type} (analyze : Unit → JA) (select : JA → CS)
    (st : PipelineStateD JA CS RD) :
    Option (PipelineStateD JA CS RD × JA × CS) × Nat :=
  let step1 : Option (PipelineStateD JA CS RD × JA) × Nat :=
    if can_skip_stage st "job_analysis_complete" then
      match st.job_analyzer_outputs.getLast? with
      | some ja => (some (st, ja), 0)
      | none => (none, 0)
    else
      let ja := analyze ()
      (some (set_job_analysis st ja, ja), 1)
  match step1 with
  | (none, n) => (none, n)
  | (some (st1, ja), n1) =>
    let step2 : Option (PipelineStateD JA CS RD × CS) × Nat :=
      if can_skip_stage st1 "content_selection_complete" then
        match st1.content_selector_outputs.getLast? with
        | some cs => (some (st1, cs), 0)
        | none => (none, 0)
      else
        let cs := select ja
        (some (set_content_selection st1 cs, cs), 1)
    match step2 with
    | (none, n2) => (none, n1 + n2)
    | (some (st2, cs), n2) =>
      (some ({ st2 with current_stage := "phase1_complete" }, ja, cs), n1 + n2)

/-- The generate-and-validate retry loop of run_phase2 in
orchestrator_enhanced (for attempt in range(max_validation_retries + 1)).
Returns the state after the loop, whether validation passed, and the last
draft.  The error case models the crash when the skipped first attempt has no
stored draft to reload. -/
def enh_phase2_aux {JA CS RD : Type} (drafter : Nat → RD) (validate : RD → Bool)
    (maxR : Nat) : Nat → Nat → PipelineStateD JA CS RD →
    Except String (PipelineStateD JA CS RD × Bool × RD)
  | 0, _, _ => Except.error "out of fuel"
  | f+1, attempt, st =>
    let draftStep : Except String (RD × PipelineStateD JA CS RD) :=
      if attempt = 0 ∧ can_skip_stage st "draft_complete" then
        match st.resume_drafter_outputs.getLast? with
        | some d => Except.ok (d, st)
        | none => Except.error "no stored draft"
      else
        let d := drafter attempt
        Except.ok (d, set_resume_draft st d)
    match draftStep with
    | .error e => Except.error e
    | .ok (draft, st1) =>
      let v := validate draft
      let st2 := set_validation_result st1 v
      if v then Except.ok (st2, true, draft)
      else if maxR ≤ attempt then Except.ok (st2, false, draft)
      else enh_phase2_aux drafter validate maxR f (attempt + 1) st2

/-- run_phase2 of orchestrator_enhanced: after the loop, a failed validation
raises ValueError (the except block logs the error to the state and
re-raises); a passed validation advances the state to phase2_complete. -/
def run_phase2_enhanced {JA CS RD : Type} (drafter : Nat → RD) (validate : RD → Bool)
    (maxR : Nat) (st0 : PipelineStateD JA CS RD) :
    Except (String × PipelineStateD JA CS RD) (PipelineStateD JA CS RD) :=
  match enh_phase2_aux drafter validate maxR (maxR + 1) 0 st0 with
  | .error e => Except.error ("Phase 2 failed: " ++ e, add_error st0 ("Phase 2 failed: " ++ e))
  | .ok (st, passed, _) =>
    if passed then Except.ok { st with current_stage := "phase2_complete" }
    else
      Except.error ("Phase 2 failed: Resume validation failed after all retries",
        add_error st "Phase 2 failed: Resume validation failed after all retries")

/-- The while loop of run_phase2 in archive/orchestrator_complete.py, with
its force_redraft flag. -/
def arch_phase2_aux {JA CS RD : Type} (drafter : Nat → RD) (validate : RD → Bool)
    (maxR : Nat) : Nat → Nat → Bool → PipelineStateD JA CS RD →
    Except String (PipelineStateD JA CS RD × Bool × RD)
  | 0, _, _, _ => Except.error "out of fuel"
  | f+1, attempt, force, st =>
    let draftStep : Except String (RD × PipelineStateD JA CS RD) :=
      if force ∨ 0 < attempt ∨ ¬ can_skip_stage st "draft_complete" then
        let d := drafter attempt
        Except.ok (d, set_resume_draft st d)
      else
        match st.resume_drafter_outputs.getLast? with
        | some d => Except.ok (d, st)
        | none => Except.error "no stored draft"
    match draftStep with
    | .error e => Except.error e
    | .ok (draft, st1) =>
      let v := validate draft
      let st2 := set_validation_result st1 v
      if v then Except.ok (st2, true, draft)
      else if attempt < maxR then arch_phase2_aux drafter validate maxR f (attempt + 1) true st2
      else Except.ok (st2, false, draft)

/-- run_phase2 of archive/orchestrator_complete.py: whatever the loop
verdict, the phase is marked phase2_complete (validation exhaustion proceeds
with warnings). -/
def run_phase2_archive {JA CS RD : Type} (drafter : Nat → RD) (validate : RD → Bool)
    (maxR : Nat) (force0 : Bool) (st0 : PipelineStateD JA CS RD) :
    Except (String × PipelineStateD JA CS RD) (PipelineStateD JA CS RD) :=
  match arch_phase2_aux drafter validate maxR (maxR + 1) 0 force0 st0 with
  | .error e => Except.error (e, add_error st0 e)
  | .ok (st, _, _) => Except.ok { st with current_stage := "phase2_complete" }

instance : Inhabited DraftExpEntry := ⟨⟨none, []⟩⟩

instance : Inhabited DraftProjEntry := ⟨⟨none⟩⟩

/-- Proof-support definition: the longest-common-run dynamic programming
table computed by the main loop of find_longest_match when both sequences are
s and both slices are [al, ah).  runDP i j is the value j2len[j] after
processing row i. -/
def runDP (s : Chars) (al ah : Nat) : Nat → Nat → Nat
  | 0, j =>
    if al ≤ 0 ∧ 0 < ah ∧ al ≤ j ∧ j < ah ∧ s.getD 0 ' ' = s.getD j ' ' ∧
        bJunk s (s.getD j ' ') = false then 1 else 0
  | i+1, j =>
    if al ≤ i + 1 ∧ i + 1 < ah ∧ al ≤ j ∧ j < ah ∧ s.getD (i+1) ' ' = s.getD j ' ' ∧
        bJunk s (s.getD j ' ') = false then
      (if j = 0 then 1 else runDP s al ah i (j - 1) + 1)
    else 0

/-- Proof-support definition: the previous-row view of the DP table (all
zeroes before the first row). -/
def mPrev (s : Chars) (al ah : Nat) (i : Nat) (x : Nat) : Nat :=
  match i with
  | 0 => 0
  | i'+1 => runDP s al ah i' x

/-- Proof-support definition: validity bounds of a best-match triple within
the slices (besti at least alo, bestj at least blo, and the matched block
ending within the bound and bhi). -/
def FlmBestInv (alo blo bound bhi : Nat) (t : FlmBest) : Prop :=
  alo ≤ t.1 ∧ blo ≤ t.2.1 ∧ t.1 + t.2.2 ≤ bound ∧ t.2.1 + t.2.2 ≤ bhi

/-! ## Theorems -/

/-- C10: deduplicate never touches the skills, publications, education or
contact fields: for every content selection and threshold, the four fields of
the output equal those of the input (duplicate removal only rewrites the
experience, project and work-sample lists, plus the deduplication_summary
metadata). -/
theorem deduplicate_frame {SkillsT PubsT EduT ContactT : Type} (thr : ℚ)
    (sel : ContentSelectionD SkillsT PubsT EduT ContactT) :
    (deduplicate thr sel).selected_skills = sel.selected_skills ∧
    (deduplicate thr sel).selected_publications = sel.selected_publications ∧
    (deduplicate thr sel).selected_education = sel.selected_education ∧
    (deduplicate thr sel).contact_info = sel.contact_info := by
  unfold deduplicate
  by_cases h : (find_duplicates (extract_all_texts sel) thr).isEmpty
  · simp [h]
  · simp [h, remove_duplicates]

/-- Helper: a nonempty string has positive length. -/
theorem text_len_pos_ne_empty (s : String) (h : 20 < s.length) : (s != "") = true := by
  have hne : s ≠ "" := by
    intro he
    subst he
    simp [String.length] at h
  simpa using hne

/-- C9 (amended): the extractor's final filter keeps exactly the texts of
length strictly greater than twenty: a candidate text appears in
_extract_all_texts iff it is one of the extracted raw texts and its length
exceeds twenty (so texts of length exactly twenty are excluded). -/
theorem extract_all_texts_length_filter {SkillsT PubsT EduT ContactT : Type}
    (sel : ContentSelectionD SkillsT PubsT EduT ContactT) (t : TextItem) :
    t ∈ extract_all_texts sel ↔ t ∈ rawTexts sel ∧ 20 < t.text.length := by
  unfold extract_all_texts
  rw [List.mem_filter]
  constructor
  · rintro ⟨hm, hp⟩
    simp only [Bool.and_eq_true, decide_eq_true_eq] at hp
    exact ⟨hm, hp.2⟩
  · rintro ⟨hm, hlen⟩
    refine ⟨hm, ?_⟩
    simp only [Bool.and_eq_true, decide_eq_true_eq]
    exact ⟨text_len_pos_ne_empty _ hlen, hlen⟩

/-- C9 witness: instantiating the filter characterization at a concrete
selection and item. -/
theorem extract_all_texts_length_filter_witness :
    let a21 : String := "abcdefghijklmnopqrstu"
    let sel : ContentSelectionD Unit Unit Unit Unit :=
      ContentSelectionD.mk [ExpSelItem.mk (some "e1") [AchValue.strVal a21] []]
        [] [] () () () () none
    let t : TextItem := TextItem.mk a21 "experience[0].key_achievements[0]"
      "experience" 1 "e1" (IdxKey.ach 0 0)
    t ∈ extract_all_texts sel := by
  intro a21 sel t
  exact (extract_all_texts_length_filter sel t).mpr ⟨by decide, by decide⟩

/-- C9 counterexample: a selection containing an achievement of length
exactly twenty; the text is among the raw extracted texts but the extractor
excludes it, refuting the claim that every text of length twenty or more
appears in the comparison list. -/
theorem extract_twenty_char_excluded :
    let a20 : String := "abcdefghijklmnopqrst"
    let sel : ContentSelectionD Unit Unit Unit Unit :=
      ContentSelectionD.mk [ExpSelItem.mk (some "e1") [AchValue.strVal a20] []]
        [] [] () () () () none
    a20.length = 20 ∧
    a20 ∈ (rawTexts sel).map (fun t => t.text) ∧
    extract_all_texts sel = [] := by
  refine ⟨by decide, by decide, by decide⟩

/-- C6: can_skip_stage returns true iff the stage is in completed_stages, and
when both Phase 1 stage names are already completed and both outputs are
recorded, a re-run of Phase 1 performs zero generation-capability calls and
returns the reloaded newest outputs, only advancing current_stage to
phase1_complete. -/
theorem run_phase1_full_skip {JA CS RD : Type} (analyze : Unit → JA) (select : JA → CS)
    (st : PipelineStateD JA CS RD) (ja : JA) (cs : CS)
    (h1 : "job_analysis_complete" ∈ st.completed_stages)
    (h2 : "content_selection_complete" ∈ st.completed_stages)
    (hja : st.job_analyzer_outputs.getLast? = some ja)
    (hcs : st.content_selector_outputs.getLast? = some cs) :
    (∀ (st' : PipelineStateD JA CS RD) (stage : String),
      can_skip_stage st' stage = true ↔ stage ∈ st'.completed_stages) ∧
    run_phase1 analyze select st =
      (some ({ st with current_stage := "phase1_complete" }, ja, cs), 0) := by
  constructor
  · intro st' stage
    simp [can_skip_stage]
  · simp [run_phase1, can_skip_stage, h1, h2, hja, hcs]

/-- C6 witness: a state with both stages completed and recorded outputs is
fully skipped. -/
theorem run_phase1_full_skip_witness :
    run_phase1 (fun _ => (0 : Nat)) (fun _ => (1 : Nat))
      (PipelineStateD.mk "phase1_complete"
        ["job_analysis_complete", "content_selection_complete"] [] [7] [9] ([] : List Nat) [])
      = (some (PipelineStateD.mk "phase1_complete"
          ["job_analysis_complete", "content_selection_complete"] [] [7] [9] [] [], 7, 9), 0) :=
  (run_phase1_full_skip (fun _ => (0 : Nat)) (fun _ => (1 : Nat))
    (PipelineStateD.mk "phase1_complete"
      ["job_analysis_complete", "content_selection_complete"] [] [7] [9] ([] : List Nat) [])
    7 9 (by decide) (by decide) (by decide) (by decide)).2

/-- C5: when exactly one of the five category-selection tasks fails, the
fan-out still yields five results, the failing slot becoming the
category-appropriate empty result annotated with the error text while the
other four carry their payloads unchanged, and the Aggregator merges the five
results into the unified selection without error. -/
theorem fanout_single_failure_isolated {ExpT ProjT PubT SamT EduT ContactT : Type}
    (t1 : Except String (ExpSelOut ExpT)) (t2 : Except String (ProjSelOut ProjT))
    (t3 : Except String SkillsSelOut) (t4 : Except String (PubSelOut PubT))
    (t5 : Except String (SampleSelOut SamT)) (contact : ContactT) (education : EduT)
    (_hone : errCount t1 t2 t3 t4 t5 = 1) :
    ∃ r : SelectAllResults ExpT ProjT PubT SamT,
      select_fanout t1 t2 t3 t4 t5 = Except.ok r ∧
      resultsLength r = 5 ∧
      r.expRes = okOr t1 expErrorResult ∧
      r.projRes = okOr t2 projErrorResult ∧
      r.skillsRes = okOr t3 skillsErrorResult ∧
      r.pubRes = okOr t4 pubErrorResult ∧
      r.sampleRes = okOr t5 sampleErrorResult ∧
      (aggregate r.expRes r.projRes r.skillsRes r.pubRes r.sampleRes contact education).selected_experiences
        = r.expRes.selected_experiences ∧
      (aggregate r.expRes r.projRes r.skillsRes r.pubRes r.sampleRes contact education).selected_projects
        = r.projRes.selected_projects ∧
      (aggregate r.expRes r.projRes r.skillsRes r.pubRes r.sampleRes contact education).selected_skills
        = r.skillsRes.selected_skills ∧
      (aggregate r.expRes r.projRes r.skillsRes r.pubRes r.sampleRes contact education).selected_publications
        = r.pubRes.selected_publications ∧
      (aggregate r.expRes r.projRes r.skillsRes r.pubRes r.sampleRes contact education).selected_work_samples
        = r.sampleRes.selected_work_samples := by
  exact ⟨SelectAllResults.mk (okOr t1 expErrorResult) (okOr t2 projErrorResult)
    (okOr t3 skillsErrorResult) (okOr t4 pubErrorResult) (okOr t5 sampleErrorResult),
    rfl, rfl, rfl, rfl, rfl, rfl, rfl, rfl, rfl, rfl, rfl, rfl⟩

/-- C5 witness: the experience task fails, the four others succeed; the
fan-out and merge behave as stated. -/
theorem fanout_single_failure_isolated_witness :
    errCount (Except.error "boom" : Except String (ExpSelOut Nat))
      (Except.ok (ProjSelOut.mk ([2] : List Nat) (some "p") none))
      (Except.ok (SkillsSelOut.mk [("cat", ["sk"])] none))
      (Except.ok (PubSelOut.mk ([3] : List Nat)))
      (Except.ok (SampleSelOut.mk ([4] : List Nat))) = 1 ∧
    ∃ r : SelectAllResults Nat Nat Nat Nat,
      select_fanout (Except.error "boom" : Except String (ExpSelOut Nat))
        (Except.ok (ProjSelOut.mk ([2] : List Nat) (some "p") none))
        (Except.ok (SkillsSelOut.mk [("cat", ["sk"])] none))
        (Except.ok (PubSelOut.mk ([3] : List Nat)))
        (Except.ok (SampleSelOut.mk ([4] : List Nat))) = Except.ok r ∧
      r.expRes = expErrorResult "boom" ∧
      (aggregate r.expRes r.projRes r.skillsRes r.pubRes r.sampleRes (0 : Nat) (0 : Nat)).selected_projects = [2] := by
  refine ⟨by decide, ?_⟩
  obtain ⟨r, hr, _, hexp, hproj, _, _, _, _, haggp, _⟩ :=
    fanout_single_failure_isolated (Except.error "boom" : Except String (ExpSelOut Nat))
      (Except.ok (ProjSelOut.mk ([2] : List Nat) (some "p") none))
      (Except.ok (SkillsSelOut.mk [("cat", ["sk"])] none))
      (Except.ok (PubSelOut.mk ([3] : List Nat)))
      (Except.ok (SampleSelOut.mk ([4] : List Nat))) (0 : Nat) (0 : Nat) (by decide)
  refine ⟨r, hr, by rw [hexp]; rfl, by rw [haggp, hproj]; rfl⟩

/-- C2 (code evaluated at the failing input): standardize_date raises on the
input 13/2020 - 14/2024, which matches the MM/YYYY - MM/YYYY shape with month
numbers outside 1..12 (datetime(2000, 13, 1) raises ValueError), so the
function is not total. -/
theorem standardize_date_month13_raises :
    standardize_date "13/2020 - 14/2024" = none := by decide

/-- C1 counterexample: with maxValidationRetries = 2 and a validator that
never passes, run_phase2 of orchestrator_enhanced raises (an error with the
logged message) instead of proceeding to phase2_complete; the state records
three validation attempts and its current stage is validation_complete. -/
theorem run_phase2_enhanced_exhaustion_raises :
    run_phase2_enhanced (fun _ => ()) (fun _ => false) 2
      ((PipelineStateD.mk "phase1_complete"
        ["job_analysis_complete"] [] [] [] [] []) : PipelineStateD Unit Unit Unit)
    = Except.error ("Phase 2 failed: Resume validation failed after all retries",
        PipelineStateD.mk "validation_complete"
          ["job_analysis_complete", "draft_complete", "validation_complete"]
          ["Phase 2 failed: Resume validation failed after all retries"]
          [] [] [(), (), ()] [false, false, false]) := by rfl

/-- Helper: when every validation fails, the enhanced loop runs to retry
exhaustion, performing one validation per attempt up to maxR, and reports
failure with the state left at validation_complete. -/
theorem enh_phase2_aux_all_fail {JA CS RD : Type} (drafter : Nat → RD)
    (validate : RD → Bool) (maxR : Nat) (hv : ∀ d, validate d = false) :
    ∀ (f attempt : Nat) (st : PipelineStateD JA CS RD), maxR - attempt < f →
    (attempt = 0 → can_skip_stage st "draft_complete" = false) →
    ∃ st' d, enh_phase2_aux drafter validate maxR f attempt st = Except.ok (st', false, d) ∧
      st'.validator_outputs.length = st.validator_outputs.length + (maxR - attempt) + 1 ∧
      st'.current_stage = "validation_complete" ∧
      st'.errors = st.errors := by
  intro f
  induction f with
  | zero => intro attempt st hf _; omega
  | succ f ih =>
    intro attempt st hf hskip
    have hdraft : ¬ (attempt = 0 ∧ can_skip_stage st "draft_complete" = true) := by
      rintro ⟨h0, hcs⟩
      rw [hskip h0] at hcs
      exact Bool.false_ne_true hcs
    by_cases hlast : maxR ≤ attempt
    · refine ⟨set_validation_result (set_resume_draft st (drafter attempt)) false,
        drafter attempt, ?_, ?_, ?_, ?_⟩
      · simp only [enh_phase2_aux, if_neg hdraft, hv, if_neg (Bool.false_ne_true), if_pos hlast]
      · simp only [set_validation_result, set_resume_draft, List.length_append,
          List.length_cons, List.length_nil]
        omega
      · rfl
      · rfl
    · push_neg at hlast
      obtain ⟨st', d, heq, hlen, hcur, herr⟩ :=
        ih (attempt + 1) (set_validation_result (set_resume_draft st (drafter attempt)) false)
          (by omega) (by omega)
      refine ⟨st', d, ?_, ?_, hcur, ?_⟩
      · simp only [enh_phase2_aux, if_neg hdraft, hv, if_neg (Bool.false_ne_true),
          if_neg (by omega : ¬ maxR ≤ attempt)]
        exact heq
      · simp only [set_validation_result, set_resume_draft, List.length_append,
          List.length_cons, List.length_nil] at hlen
        omega
      · simpa [set_validation_result, set_resume_draft] using herr

/-- Helper: the archive loop under always-failing validation likewise
performs one validation per attempt up to maxR and ends unpassed. -/
theorem arch_phase2_aux_all_fail {JA CS RD : Type} (drafter : Nat → RD)
    (validate : RD → Bool) (maxR : Nat) (hv : ∀ d, validate d = false) :
    ∀ (f attempt : Nat) (force : Bool) (st : PipelineStateD JA CS RD), maxR - attempt < f →
    (force = true ∨ 0 < attempt ∨ can_skip_stage st "draft_complete" = false) →
    ∃ st' d, arch_phase2_aux drafter validate maxR f attempt force st = Except.ok (st', false, d) ∧
      st'.validator_outputs.length = st.validator_outputs.length + (maxR - attempt) + 1 ∧
      st'.current_stage = "validation_complete" ∧
      st'.errors = st.errors := by
  intro f
  induction f with
  | zero => intro attempt force st hf _; omega
  | succ f ih =>
    intro attempt force st hf hcond
    have hdraft : force = true ∨ 0 < attempt ∨ ¬ can_skip_stage st "draft_complete" = true := by
      rcases hcond with h | h | h
      · exact Or.inl h
      · exact Or.inr (Or.inl h)
      · exact Or.inr (Or.inr (by rw [h]; exact Bool.false_ne_true))
    by_cases hlast : attempt < maxR
    · obtain ⟨st', d, heq, hlen, hcur, herr⟩ :=
        ih (attempt + 1) true (set_validation_result (set_resume_draft st (drafter attempt)) false)
          (by omega) (Or.inl rfl)
      refine ⟨st', d, ?_, ?_, hcur, ?_⟩
      · simp only [arch_phase2_aux, if_pos hdraft, hv, if_neg (Bool.false_ne_true), if_pos hlast]
        exact heq
      · simp only [set_validation_result, set_resume_draft, List.length_append,
          List.length_cons, List.length_nil] at hlen
        omega
      · simpa [set_validation_result, set_resume_draft] using herr
    · refine ⟨set_validation_result (set_resume_draft st (drafter attempt)) false,
        drafter attempt, ?_, ?_, ?_, ?_⟩
      · simp only [arch_phase2_aux, if_pos hdraft, hv, if_neg (Bool.false_ne_true), if_neg hlast]
      · simp only [set_validation_result, set_resume_draft, List.length_append,
          List.length_cons, List.length_nil]
        omega
      · rfl
      · rfl

/-- C1 (amended): with maxValidationRetries = 2 and every validation attempt
failing, both Phase 2 loops perform exactly three total validation attempts;
on exhaustion the archive orchestrator (orchestrator_complete) proceeds to
phase2_complete with warnings, while the enhanced orchestrator
(orchestrator_enhanced) logs the failure and raises without reaching
phase2_complete. -/
theorem phase2_three_attempts_exhaustion {JA CS RD : Type} (drafter : Nat → RD)
    (validate : RD → Bool) (st0 : PipelineStateD JA CS RD)
    (hv : ∀ d, validate d = false)
    (hns : can_skip_stage st0 "draft_complete" = false) :
    (∃ stE, run_phase2_enhanced drafter validate 2 st0 =
        Except.error ("Phase 2 failed: Resume validation failed after all retries", stE) ∧
      stE.validator_outputs.length = st0.validator_outputs.length + 3 ∧
      stE.current_stage = "validation_complete" ∧
      "Phase 2 failed: Resume validation failed after all retries" ∈ stE.errors) ∧
    (∃ stA, run_phase2_archive drafter validate 2 false st0 = Except.ok stA ∧
      stA.validator_outputs.length = st0.validator_outputs.length + 3 ∧
      stA.current_stage = "phase2_complete") := by
  constructor
  · obtain ⟨st', d, heq, hlen, hcur, herr⟩ :=
      enh_phase2_aux_all_fail drafter validate 2 hv 3 0 st0 (by omega) (fun _ => hns)
    refine ⟨add_error st' "Phase 2 failed: Resume validation failed after all retries",
      ?_, ?_, ?_, ?_⟩
    · simp only [run_phase2_enhanced, heq, Bool.false_eq_true, ite_false]
    · simpa [add_error] using hlen
    · simpa [add_error] using hcur
    · simp [add_error]
  · obtain ⟨st', d, heq, hlen, hcur, herr⟩ :=
      arch_phase2_aux_all_fail drafter validate 2 hv 3 0 false st0 (by omega)
        (Or.inr (Or.inr hns))
    refine ⟨{ st' with current_stage := "phase2_complete" }, ?_, ?_, rfl⟩
    · simp only [run_phase2_archive, heq]
    · simpa using hlen

/-- C1 witness: the amended statement instantiated at a concrete fresh state
with an always-failing validator. -/
theorem phase2_three_attempts_exhaustion_witness :
    (∃ stE, run_phase2_enhanced (fun _ => ()) (fun _ => false) 2
        ((PipelineStateD.mk "phase1_complete" [] [] [] [] [] []) : PipelineStateD Unit Unit Unit) =
        Except.error ("Phase 2 failed: Resume validation failed after all retries", stE) ∧
      stE.validator_outputs.length = 0 + 3 ∧
      stE.current_stage = "validation_complete" ∧
      "Phase 2 failed: Resume validation failed after all retries" ∈ stE.errors) ∧
    (∃ stA, run_phase2_archive (fun _ => ()) (fun _ => false) 2 false
        ((PipelineStateD.mk "phase1_complete" [] [] [] [] [] []) : PipelineStateD Unit Unit Unit) =
        Except.ok stA ∧
      stA.validator_outputs.length = 0 + 3 ∧
      stA.current_stage = "phase2_complete") :=
  phase2_three_attempts_exhaustion (fun _ => ()) (fun _ => false)
    ((PipelineStateD.mk "phase1_complete" [] [] [] [] [] []) : PipelineStateD Unit Unit Unit)
    (fun _ => rfl) (by decide)

/-- C7 counterexample: the input a-endash-b matches none of the supported
date patterns, yet standardize_date returns it with the en dash normalized to
a hyphen, not character-for-character unchanged. -/
theorem standardize_date_fallback_not_identity :
    (let t0 := stripChars "a – b".data
     let t := normDashes (substCurrent t0)
     correctFormat t0 = false ∧ correctFormat t = false ∧
     pat1 t = none ∧ pat2 t = none ∧ pat3 t = none ∧ pat4 t = none ∧
     pat5 t = none ∧ pat6 t = false ∧ pat7 t = none) ∧
    standardize_date "a – b" = some "a - b" ∧
    ("a - b" : String) ≠ "a – b" := by
  exact ⟨⟨by decide, by decide, by decide, by decide, by decide, by decide, by decide,
    by decide, by decide⟩, by decide, by decide⟩

/-- C7 (amended): standardize_date maps 2019-2025 to Jan 2019 - Dec 2025,
Oct 2019 (en dash) Present to Oct 2019 - Present, 2024 to 2024, and
01/2020 - 12/2024 to Jan 2020 - Dec 2024; and every input matching none of
the supported patterns is returned after whitespace stripping,
Current-to-Present substitution and dash normalization (hence unchanged
exactly when those transformations fix it). -/
theorem standardize_date_mappings_and_fallback :
    standardize_date "2019-2025" = some "Jan 2019 - Dec 2025" ∧
    standardize_date "Oct 2019 – Present" = some "Oct 2019 - Present" ∧
    standardize_date "2024" = some "2024" ∧
    standardize_date "01/2020 - 12/2024" = some "Jan 2020 - Dec 2024" ∧
    (∀ (s : String) (t : Chars), s ≠ "" →
      correctFormat (stripChars s.data) = false →
      t = normDashes (substCurrent (stripChars s.data)) →
      pat1 t = none → pat2 t = none → pat3 t = none → pat4 t = none →
      pat5 t = none → pat6 t = false → pat7 t = none →
      standardize_date s = some (String.mk t)) := by
  refine ⟨by decide, by decide, by decide, by decide, ?_⟩
  intro s t hne hcf ht h1 h2 h3 h4 h5 h6 h7
  have hie : s.isEmpty = false := by
    rw [Bool.eq_false_iff]
    intro h
    exact hne ((String.isEmpty_iff s).mp h)
  subst ht
  simp only [standardize_date, hie, Bool.false_eq_true, ite_false, hcf,
    h1, h2, h3, h4, h5, h6, h7]

/-- C7 witness: the fallback clause of the amended statement applied to a
concrete unparseable input. -/
theorem standardize_date_mappings_and_fallback_witness :
    standardize_date "no date here" = some "no date here" := by
  have h := standardize_date_mappings_and_fallback.2.2.2.2 "no date here"
    (normDashes (substCurrent (stripChars "no date here".data)))
    (by decide) (by decide) rfl (by decide) (by decide) (by decide) (by decide)
    (by decide) (by decide) (by decide)
  exact h.trans (by decide)

/-- Helper: the duplicate-group comparator is transitive. -/
theorem dupSortLE_trans (a b c : TextItem) (hab : dupSortLE a b = true)
    (hbc : dupSortLE b c = true) : dupSortLE a c = true := by
  simp only [dupSortLE, Bool.or_eq_true, Bool.and_eq_true, decide_eq_true_eq] at *
  omega

/-- Helper: the duplicate-group comparator is total. -/
theorem dupSortLE_total (a b : TextItem) : (dupSortLE a b || dupSortLE b a) = true := by
  simp only [dupSortLE, Bool.or_eq_true, Bool.and_eq_true, decide_eq_true_eq]
  omega

theorem mergeStable_mem {α : Type} (le : α → α → Bool) :
    ∀ (f : Nat) (l r : List α) (x : α), x ∈ mergeStable le f l r → x ∈ l ∨ x ∈ r := by
  intro f
  induction f with
  | zero => intro l r x hx; exact List.mem_append.mp (by simp only [mergeStable] at hx; exact hx)
  | succ f ih =>
    intro l r x hx
    match l, r with
    | [], r => right; simpa [mergeStable] using hx
    | a :: l, [] => left; simpa [mergeStable] using hx
    | a :: l, b :: r =>
      rw [mergeStable] at hx
      by_cases h : le a b
      · rw [if_pos h] at hx
        rcases List.mem_cons.mp hx with rfl | hx2
        · exact Or.inl (List.mem_cons_self _ _)
        · rcases ih l (b :: r) x hx2 with h1 | h2
          · exact Or.inl (List.mem_cons_of_mem _ h1)
          · exact Or.inr h2
      · rw [if_neg h] at hx
        rcases List.mem_cons.mp hx with rfl | hx2
        · exact Or.inr (List.mem_cons_self _ _)
        · rcases ih (a :: l) r x hx2 with h1 | h2
          · exact Or.inl h1
          · exact Or.inr (List.mem_cons_of_mem _ h2)

theorem mergeStable_sorted {α : Type} (le : α → α → Bool)
    (htrans : ∀ a b c, le a b = true → le b c = true → le a c = true)
    (htotal : ∀ a b, (le a b || le b a) = true) :
    ∀ (f : Nat) (l r : List α), l.length + r.length ≤ f →
      List.Pairwise (fun a b => le a b = true) l →
      List.Pairwise (fun a b => le a b = true) r →
      List.Pairwise (fun a b => le a b = true) (mergeStable le f l r) := by
  intro f
  induction f with
  | zero =>
    intro l r hf hl hr
    have h1 : l = [] := List.eq_nil_of_length_eq_zero (by omega)
    have h2 : r = [] := List.eq_nil_of_length_eq_zero (by omega)
    subst h1; subst h2
    simp [mergeStable]
  | succ f ih =>
    intro l r hf hl hr
    match l, r with
    | [], r => simpa [mergeStable] using hr
    | a :: l, [] => simpa [mergeStable] using hl
    | a :: l, b :: r =>
      rw [mergeStable]
      obtain ⟨ha, hl2⟩ := List.pairwise_cons.mp hl
      obtain ⟨hb, hr2⟩ := List.pairwise_cons.mp hr
      simp only [List.length_cons] at hf
      by_cases h : le a b
      · rw [if_pos h]
        rw [List.pairwise_cons]
        constructor
        · intro x hx
          rcases mergeStable_mem le f l (b :: r) x hx with h1 | h2
          · exact ha x h1
          · rcases List.mem_cons.mp h2 with rfl | h3
            · exact h
            · exact htrans a b x h (hb x h3)
        · exact ih l (b :: r) (by simp; omega) hl2 hr
      · rw [if_neg h]
        have hba : le b a = true := by
          rcases Bool.or_eq_true_iff.mp (htotal a b) with h1 | h2
          · exact absurd h1 h
          · exact h2
        rw [List.pairwise_cons]
        constructor
        · intro x hx
          rcases mergeStable_mem le f (a :: l) r x hx with h1 | h2
          · rcases List.mem_cons.mp h1 with rfl | h3
            · exact hba
            · exact htrans b a x hba (ha x h3)
          · exact hb x h2
        · exact ih (a :: l) r (by simp; omega) hl hr2

theorem stableSortAux_length {α : Type} (le : α → α → Bool) :
    ∀ (f : Nat) (l : List α), (stableSortAux le f l).length = l.length := by
  intro f
  induction f with
  | zero => intro l; rfl
  | succ f ih =>
    intro l
    rw [stableSortAux]
    by_cases h : l.length ≤ 1
    · rw [if_pos h]
    · rw [if_neg h]
      have hm : ∀ (g : Nat) (u v : List α), (mergeStable le g u v).length = u.length + v.length := by
        intro g
        induction g with
        | zero => intro u v; simp [mergeStable]
        | succ g ihg =>
          intro u v
          match u, v with
          | [], v => simp [mergeStable]
          | a :: u, [] => simp [mergeStable]
          | a :: u, b :: v =>
            rw [mergeStable]
            by_cases hab : le a b
            · rw [if_pos hab]
              simp only [List.length_cons, ihg]
              omega
            · rw [if_neg hab]
              simp only [List.length_cons, ihg]
              omega
      rw [hm, ih, ih, List.length_take, List.length_drop]
      omega

theorem stableSortAux_sorted {α : Type} (le : α → α → Bool)
    (htrans : ∀ a b c, le a b = true → le b c = true → le a c = true)
    (htotal : ∀ a b, (le a b || le b a) = true) :
    ∀ (f : Nat) (l : List α), l.length ≤ f →
      List.Pairwise (fun a b => le a b = true) (stableSortAux le f l) := by
  intro f
  induction f with
  | zero =>
    intro l hl
    have : l = [] := List.eq_nil_of_length_eq_zero (by omega)
    subst this
    exact List.Pairwise.nil
  | succ f ih =>
    intro l hl
    rw [stableSortAux]
    by_cases h : l.length ≤ 1
    · rw [if_pos h]
      match l, h with
      | [], _ => exact List.Pairwise.nil
      | [a], _ => simp
    · rw [if_neg h]
      refine mergeStable_sorted le htrans htotal _ _ _ ?_
        (ih (l.take (l.length / 2)) (by rw [List.length_take]; omega))
        (ih (l.drop (l.length / 2)) (by rw [List.length_drop]; omega))
      rw [stableSortAux_length, stableSortAux_length, List.length_take, List.length_drop]
      omega

theorem sorted_head_le_tail (l : List TextItem) :
    ∀ r ∈ (stableSort dupSortLE l).tail,
      dupSortLE ((stableSort dupSortLE l).headD default) r = true := by
  have hsorted := stableSortAux_sorted dupSortLE dupSortLE_trans dupSortLE_total
    l.length l (le_refl _)
  rw [show stableSortAux dupSortLE l.length l = stableSort dupSortLE l from rfl] at hsorted
  cases h : stableSort dupSortLE l with
  | nil => simp
  | cons a t =>
    rw [h] at hsorted
    simpa using (List.pairwise_cons.mp hsorted).1

/-- Helper: every group produced by _find_duplicates has its kept item below
every removed item under the comparator (head of the stable sort). -/
theorem find_duplicates_aux_kept_min (texts : List TextItem) (thr : ℚ) :
    ∀ (is processed : List Nat) (g : DupGroup),
      g ∈ find_duplicates_aux texts thr is processed →
      ∀ r ∈ g.removed, dupSortLE g.kept r = true := by
  intro is
  induction is with
  | nil => intro processed g hg; simp [find_duplicates_aux] at hg
  | cons i rest ih =>
    intro processed g hg r hr
    simp only [find_duplicates_aux] at hg
    by_cases hp : i ∈ processed
    · rw [if_pos hp] at hg
      exact ih processed g hg r hr
    · rw [if_neg hp] at hg
      by_cases hempty : ((List.range texts.length).filter (fun j =>
          decide (j ≠ i) && decide (j ∉ processed) &&
          decide (thr ≤ calculate_similarity (texts.getD i default).text
            (texts.getD j default).text))).isEmpty
      · rw [if_pos hempty] at hg
        exact ih processed g hg r hr
      · rw [if_neg hempty] at hg
        rcases List.mem_cons.mp hg with hghead | hgtail
        · subst hghead
          exact sorted_head_le_tail _ r hr
        · exact ih (processed ++ _ ++ [i]) g hgtail r hr

/-- C4: in every duplicate group identified by the Deduplicator, the kept
item has the highest priority present in the group (a lower-priority
near-duplicate is never kept over a higher-priority one regardless of text
length), and among equal priorities the kept text is at least as long as any
removed one. -/
theorem dedup_group_priority_invariant (texts : List TextItem) (thr : ℚ)
    (g : DupGroup) (hg : g ∈ find_duplicates texts thr)
    (r : TextItem) (hr : r ∈ g.removed) :
    g.kept.priority < r.priority ∨
    (g.kept.priority = r.priority ∧ r.text.length ≤ g.kept.text.length) := by
  have h := find_duplicates_aux_kept_min texts thr (List.range texts.length) [] g hg r hr
  simpa only [dupSortLE, Bool.or_eq_true, Bool.and_eq_true, decide_eq_true_eq] using h

set_option maxRecDepth 8000 in
/-- C4 witness: two identical achievement texts, one in an experience
(priority 1) and one in a project (priority 2), form a duplicate group at
threshold 4/5; the invariant instantiates to the experience item being
kept. -/
theorem dedup_group_priority_invariant_witness :
    (DupGroup.mk
      (TextItem.mk "abcdefghijklmnopqrstuvwxyz" "experience[0].key_achievements[0]"
        "experience" 1 "e1" (IdxKey.ach 0 0))
      [TextItem.mk "abcdefghijklmnopqrstuvwxyz" "project[0].key_achievements[0]"
        "project" 2 "p1" (IdxKey.ach 0 0)] 1).kept.priority <
      (TextItem.mk "abcdefghijklmnopqrstuvwxyz" "project[0].key_achievements[0]"
        "project" 2 "p1" (IdxKey.ach 0 0)).priority ∨
    ((DupGroup.mk
      (TextItem.mk "abcdefghijklmnopqrstuvwxyz" "experience[0].key_achievements[0]"
        "experience" 1 "e1" (IdxKey.ach 0 0))
      [TextItem.mk "abcdefghijklmnopqrstuvwxyz" "project[0].key_achievements[0]"
        "project" 2 "p1" (IdxKey.ach 0 0)] 1).kept.priority =
      (TextItem.mk "abcdefghijklmnopqrstuvwxyz" "project[0].key_achievements[0]"
        "project" 2 "p1" (IdxKey.ach 0 0)).priority ∧
      (TextItem.mk "abcdefghijklmnopqrstuvwxyz" "project[0].key_achievements[0]"
        "project" 2 "p1" (IdxKey.ach 0 0)).text.length ≤
      (DupGroup.mk
        (TextItem.mk "abcdefghijklmnopqrstuvwxyz" "experience[0].key_achievements[0]"
          "experience" 1 "e1" (IdxKey.ach 0 0))
        [TextItem.mk "abcdefghijklmnopqrstuvwxyz" "project[0].key_achievements[0]"
          "project" 2 "p1" (IdxKey.ach 0 0)] 1).kept.text.length) :=
  dedup_group_priority_invariant
    [TextItem.mk "abcdefghijklmnopqrstuvwxyz" "experience[0].key_achievements[0]"
      "experience" 1 "e1" (IdxKey.ach 0 0),
     TextItem.mk "abcdefghijklmnopqrstuvwxyz" "project[0].key_achievements[0]"
      "project" 2 "p1" (IdxKey.ach 0 0)] (mkRat 4 5)
    (DupGroup.mk
      (TextItem.mk "abcdefghijklmnopqrstuvwxyz" "experience[0].key_achievements[0]"
        "experience" 1 "e1" (IdxKey.ach 0 0))
      [TextItem.mk "abcdefghijklmnopqrstuvwxyz" "project[0].key_achievements[0]"
        "project" 2 "p1" (IdxKey.ach 0 0)] 1)
    (by decide)
    (TextItem.mk "abcdefghijklmnopqrstuvwxyz" "project[0].key_achievements[0]"
      "project" 2 "p1" (IdxKey.ach 0 0))
    (by decide)

theorem digitToChar_inj_lt :
    ∀ a, a < 10 → ∀ b, b < 10 → digitToChar a = digitToChar b → a = b := by decide

theorem digitToChar_isDigit : ∀ a, a < 10 → (digitToChar a).isDigit = true := by decide

theorem natToStrAux_eq_canon : ∀ (f n : Nat), n < f →
    natToStrAux f n = if n = 0 then [digitToChar 0]
      else ((Nat.digits 10 n).map digitToChar).reverse := by
  intro f
  induction f with
  | zero => intro n hn; omega
  | succ f ih =>
    intro n hn
    by_cases hsmall : n < 10
    · rw [natToStrAux, if_pos hsmall]
      by_cases h0 : n = 0
      · subst h0; rfl
      · rw [if_neg h0]
        rw [Nat.digits_def' (by norm_num) (Nat.pos_of_ne_zero h0)]
        rw [Nat.mod_eq_of_lt hsmall, Nat.div_eq_of_lt hsmall, Nat.digits_zero]
        rfl
    · rw [natToStrAux, if_neg hsmall]
      have hpos : 0 < n := by omega
      have hd : n / 10 < f := by
        have := Nat.div_lt_self hpos (by norm_num : (1:Nat) < 10)
        omega
      have hd0 : n / 10 ≠ 0 := by
        intro h
        have := Nat.div_eq_of_lt (by omega : n < 10)
        omega
      rw [ih (n / 10) hd, if_neg hd0]
      rw [if_neg (by omega : ¬ n = 0)]
      rw [Nat.digits_def' (by norm_num) hpos]
      rw [List.map_cons, List.reverse_cons]

theorem natToStr_data (n : Nat) :
    (natToStr n).data = if n = 0 then [digitToChar 0]
      else ((Nat.digits 10 n).map digitToChar).reverse := by
  show natToStrAux (n + 1) n = _
  exact natToStrAux_eq_canon (n + 1) n (by omega)

theorem natToStr_all_digits (n : Nat) : ∀ c ∈ (natToStr n).data, c.isDigit = true := by
  intro c hc
  rw [natToStr_data] at hc
  by_cases h0 : n = 0
  · rw [if_pos h0] at hc
    simp only [List.mem_singleton] at hc
    subst hc
    exact digitToChar_isDigit 0 (by norm_num)
  · rw [if_neg h0] at hc
    rw [List.mem_reverse, List.mem_map] at hc
    obtain ⟨d, hd, rfl⟩ := hc
    exact digitToChar_isDigit d (Nat.digits_lt_base (by norm_num) hd)

theorem map_digitToChar_inj : ∀ (l1 l2 : List Nat), (∀ x ∈ l1, x < 10) → (∀ x ∈ l2, x < 10) →
    l1.map digitToChar = l2.map digitToChar → l1 = l2 := by
  intro l1
  induction l1 with
  | nil => intro l2 _ _ h; cases l2 <;> simp_all
  | cons a l1 ih =>
    intro l2 h1 h2 h
    cases l2 with
    | nil => simp at h
    | cons b l2 =>
      simp only [List.map_cons, List.cons.injEq] at h
      have hab : a = b := digitToChar_inj_lt a (h1 a (List.mem_cons_self a l1)) b
        (h2 b (List.mem_cons_self b l2)) h.1
      rw [hab, ih l2 (fun x hx => h1 x (List.mem_cons_of_mem _ hx))
        (fun x hx => h2 x (List.mem_cons_of_mem _ hx)) h.2]

theorem natToStr_inj : ∀ (m n : Nat), natToStr m = natToStr n → m = n := by
  have hzero : ∀ (n : Nat), n ≠ 0 →
      (natToStr n).data ≠ [digitToChar 0] := by
    intro n hn h
    rw [natToStr_data, if_neg hn] at h
    have hlen : ((Nat.digits 10 n).map digitToChar).reverse.length = 1 := by rw [h]; rfl
    rw [List.length_reverse, List.length_map] at hlen
    obtain ⟨d, hd⟩ : ∃ d, Nat.digits 10 n = [d] := by
      cases hds : Nat.digits 10 n with
      | nil => rw [hds] at hlen; simp at hlen
      | cons d t =>
        rw [hds] at hlen
        simp only [List.length_cons] at hlen
        have : t = [] := List.eq_nil_of_length_eq_zero (by omega)
        exact ⟨d, by rw [this]⟩
    rw [hd] at h
    simp only [List.map_cons, List.map_nil, List.reverse_singleton, List.cons.injEq] at h
    have hd10 : d < 10 := Nat.digits_lt_base (by norm_num) (by rw [hd]; exact List.mem_singleton_self d)
    have hd0 : d = 0 := digitToChar_inj_lt d hd10 0 (by norm_num) h.1
    have := Nat.ofDigits_digits 10 n
    rw [hd, hd0] at this
    simp [Nat.ofDigits] at this
    exact hn this.symm
  intro m n h
  have hdata : (natToStr m).data = (natToStr n).data := by rw [h]
  by_cases hm : m = 0 <;> by_cases hn : n = 0
  · omega
  · exfalso
    apply hzero n hn
    rw [← hdata, natToStr_data, if_pos hm]
  · exfalso
    apply hzero m hm
    rw [hdata, natToStr_data, if_pos hn]
  · rw [natToStr_data, if_neg hm, natToStr_data, if_neg hn] at hdata
    have hrev := List.reverse_injective hdata
    have hdig := map_digitToChar_inj _ _
      (fun x hx => Nat.digits_lt_base (by norm_num) hx)
      (fun x hx => Nat.digits_lt_base (by norm_num) hx) hrev
    have h1 := Nat.ofDigits_digits 10 m
    have h2 := Nat.ofDigits_digits 10 n
    rw [hdig] at h1
    rw [h1] at h2
    exact h2

theorem natToStr_count_eq_zero (n : Nat) (c : Char) (hc : c.isDigit = false) :
    (natToStr n).data.count c = 0 := by
  rw [List.count_eq_zero]
  intro hmem
  have := natToStr_all_digits n c hmem
  rw [hc] at this
  exact Bool.false_ne_true this

theorem expLoc_data (i : Nat) :
    (expLoc i).data = "experience[".data ++ (natToStr i).data ++ "]".data := by
  show (("experience[" ++ natToStr i) ++ "]").data = _
  rw [String.data_append, String.data_append]

theorem projLoc_data (i : Nat) :
    (projLoc i).data = "bulleted_projects[".data ++ (natToStr i).data ++ "]".data := by
  show (("bulleted_projects[" ++ natToStr i) ++ "]").data = _
  rw [String.data_append, String.data_append]

theorem expAchLoc_data (i j : Nat) :
    (expAchLoc i j).data = "experience[".data ++ (natToStr i).data ++ "].achievements[".data
      ++ (natToStr j).data ++ "]".data := by
  show (((("experience[" ++ natToStr i) ++ "].achievements[") ++ natToStr j) ++ "]").data = _
  rw [String.data_append, String.data_append, String.data_append, String.data_append]

theorem expLoc_inj (i i' : Nat) (h : expLoc i = expLoc i') : i = i' := by
  have hd : (expLoc i).data = (expLoc i').data := by rw [h]
  rw [expLoc_data, expLoc_data] at hd
  rw [List.append_assoc, List.append_assoc] at hd
  have h1 := List.append_cancel_left hd
  have h2 := List.append_cancel_right h1
  exact natToStr_inj i i' (String.ext h2)

theorem projLoc_inj (i i' : Nat) (h : projLoc i = projLoc i') : i = i' := by
  have hd : (projLoc i).data = (projLoc i').data := by rw [h]
  rw [projLoc_data, projLoc_data] at hd
  rw [List.append_assoc, List.append_assoc] at hd
  have h1 := List.append_cancel_left hd
  have h2 := List.append_cancel_right h1
  exact natToStr_inj i i' (String.ext h2)

theorem expLoc_count_lsq (i : Nat) : (expLoc i).data.count '[' = 1 := by
  rw [expLoc_data, List.count_append, List.count_append]
  rw [natToStr_count_eq_zero i '[' (by decide)]
  decide

theorem projLoc_count_lsq (i : Nat) : (projLoc i).data.count '[' = 1 := by
  rw [projLoc_data, List.count_append, List.count_append]
  rw [natToStr_count_eq_zero i '[' (by decide)]
  decide

theorem expAchLoc_count_lsq (i j : Nat) : (expAchLoc i j).data.count '[' = 2 := by
  rw [expAchLoc_data, List.count_append, List.count_append, List.count_append,
    List.count_append]
  rw [natToStr_count_eq_zero i '[' (by decide), natToStr_count_eq_zero j '[' (by decide)]
  decide

theorem expLoc_count_x (i : Nat) : (expLoc i).data.count 'x' = 1 := by
  rw [expLoc_data, List.count_append, List.count_append]
  rw [natToStr_count_eq_zero i 'x' (by decide)]
  decide

theorem projLoc_count_x (i : Nat) : (projLoc i).data.count 'x' = 0 := by
  rw [projLoc_data, List.count_append, List.count_append]
  rw [natToStr_count_eq_zero i 'x' (by decide)]
  decide

theorem expLoc_ne_expAchLoc (i i' j' : Nat) : expLoc i ≠ expAchLoc i' j' := by
  intro h
  have := congrArg (fun s => s.data.count '[') h
  simp only at this
  rw [expLoc_count_lsq, expAchLoc_count_lsq] at this
  omega

theorem expLoc_ne_projLoc (i i' : Nat) : expLoc i ≠ projLoc i' := by
  intro h
  have := congrArg (fun s => s.data.count 'x') h
  simp only at this
  rw [expLoc_count_x, projLoc_count_x] at this
  omega

theorem projLoc_ne_expAchLoc (i i' j' : Nat) : projLoc i ≠ expAchLoc i' j' := by
  intro h
  have := congrArg (fun s => s.data.count '[') h
  simp only at this
  rw [projLoc_count_lsq, expAchLoc_count_lsq] at this
  omega

theorem headIssues_loc (V : List String) (loc noun : String) (src : Option String) :
    ∀ iss ∈ headIssues V loc noun src, iss.location = loc := by
  intro iss hm
  unfold headIssues at hm
  by_cases h1 : missingSrc src = true
  · rw [if_pos h1] at hm
    simp only [List.mem_singleton] at hm
    rw [hm]
  · rw [if_neg h1] at hm
    match src with
    | none => simp at hm
    | some s =>
      simp only at hm
      by_cases h2 : s ∈ V
      · rw [if_pos h2] at hm; simp at hm
      · rw [if_neg h2] at hm
        simp only [List.mem_singleton] at hm
        rw [hm]

theorem expAchIssue_loc (V : List String) (i j : Nat) (a : DraftAch) :
    ∀ iss ∈ expAchIssue V i j a, iss.location = expAchLoc i j := by
  intro iss hm
  match a with
  | .plain s => simp [expAchIssue] at hm
  | .obj src => exact headIssues_loc V _ _ src iss hm

theorem countP_headIssues_ne (V : List String) (loc noun : String) (src : Option String)
    (tgt : String) (hne : loc ≠ tgt) :
    List.countP (fun iss => iss.location == tgt) (headIssues V loc noun src) = 0 := by
  rw [List.countP_eq_zero]
  intro iss hm hp
  rw [beq_iff_eq] at hp
  exact hne ((headIssues_loc V loc noun src iss hm) ▸ hp)

theorem countP_achPart_expLoc (V : List String) (k i : Nat) (achs : List DraftAch) :
    List.countP (fun iss => iss.location == expLoc i)
      (achs.enum.flatMap (fun q => expAchIssue V k q.1 q.2)) = 0 := by
  rw [List.countP_eq_zero]
  intro iss hm hp
  rw [beq_iff_eq] at hp
  obtain ⟨q, _, hq⟩ := List.mem_flatMap.mp hm
  have := expAchIssue_loc V k q.1 q.2 iss hq
  rw [this] at hp
  exact expLoc_ne_expAchLoc i k q.1 hp.symm

theorem countP_expEntryIssues_ne (V : List String) (k i : Nat) (e : DraftExpEntry)
    (hki : k ≠ i) :
    List.countP (fun iss => iss.location == expLoc i) (expEntryIssues V k e) = 0 := by
  unfold expEntryIssues
  rw [List.countP_append, countP_headIssues_ne V _ _ _ _ (fun h => hki (expLoc_inj k i h)),
    countP_achPart_expLoc]

theorem countP_expEntryIssues_self (V : List String) (i : Nat) (e : DraftExpEntry) :
    List.countP (fun iss => iss.location == expLoc i) (expEntryIssues V i e) =
      List.countP (fun iss => iss.location == expLoc i)
        (headIssues V (expLoc i) "Experience" e.source_id) := by
  unfold expEntryIssues
  rw [List.countP_append, countP_achPart_expLoc]
  omega

theorem mem_enumFrom_getD {α : Type} (d : α) :
    ∀ (l : List α) (k idx : Nat), idx < l.length → (k + idx, l.getD idx d) ∈ l.enumFrom k := by
  intro l
  induction l with
  | nil => intro k idx h; simp at h
  | cons a t ih =>
    intro k idx h
    rw [List.enumFrom_cons]
    match idx with
    | 0 => simp
    | idx'+1 =>
      right
      have := ih (k + 1) idx' (by simpa using h)
      simpa [Nat.add_assoc, Nat.add_comm 1 idx'] using this

theorem countP_exp_flatMap (V : List String) (i : Nat) :
    ∀ (l : List DraftExpEntry) (k : Nat),
      List.countP (fun iss => iss.location == expLoc i)
        ((l.enumFrom k).flatMap (fun p => expEntryIssues V p.1 p.2)) =
      if k ≤ i ∧ i - k < l.length then
        List.countP (fun iss => iss.location == expLoc i)
          (headIssues V (expLoc i) "Experience" (l.getD (i - k) default).source_id)
      else 0 := by
  intro l
  induction l with
  | nil => intro k; simp [List.enumFrom]
  | cons e t ih =>
    intro k
    rw [List.enumFrom_cons, List.flatMap_cons, List.countP_append, ih (k + 1)]
    by_cases hk : k = i
    · subst hk
      rw [countP_expEntryIssues_self]
      rw [if_neg (by omega), if_pos ⟨le_refl _, by simp [Nat.sub_self]⟩]
      simp [Nat.sub_self]
    · rw [countP_expEntryIssues_ne V k i e hk]
      by_cases hlt : k < i
      · by_cases hrange : i - (k + 1) < t.length
        · rw [if_pos ⟨by omega, hrange⟩, if_pos ⟨by omega, by simp; omega⟩]
          have : i - k = (i - (k + 1)) + 1 := by omega
          rw [this]
          simp
        · rw [if_neg (by omega), if_neg (by simp; omega)]
      · rw [if_neg (by omega), if_neg (by omega)]

theorem countP_proj_flatMap_expLoc (V : List String) (i : Nat)
    (l : List DraftProjEntry) (k : Nat) :
    List.countP (fun iss => iss.location == expLoc i)
      ((l.enumFrom k).flatMap (fun p => projEntryIssues V p.1 p.2)) = 0 := by
  rw [List.countP_eq_zero]
  intro iss hm hp
  rw [beq_iff_eq] at hp
  obtain ⟨q, _, hq⟩ := List.mem_flatMap.mp hm
  have := headIssues_loc V (projLoc q.1) "Project" q.2.source_id iss hq
  rw [this] at hp
  exact expLoc_ne_projLoc i q.1 hp.symm

theorem expEntryIssues_loc (V : List String) (k : Nat) (e : DraftExpEntry) :
    ∀ iss ∈ expEntryIssues V k e,
      iss.location = expLoc k ∨ ∃ j, iss.location = expAchLoc k j := by
  intro iss hm
  unfold expEntryIssues at hm
  rcases List.mem_append.mp hm with h | h
  · exact Or.inl (headIssues_loc V _ _ _ iss h)
  · obtain ⟨q, _, hq⟩ := List.mem_flatMap.mp h
    exact Or.inr ⟨q.1, expAchIssue_loc V k q.1 q.2 iss hq⟩

theorem countP_exp_flatMap_projLoc (V : List String) (i : Nat)
    (l : List DraftExpEntry) (k : Nat) :
    List.countP (fun iss => iss.location == projLoc i)
      ((l.enumFrom k).flatMap (fun p => expEntryIssues V p.1 p.2)) = 0 := by
  rw [List.countP_eq_zero]
  intro iss hm hp
  rw [beq_iff_eq] at hp
  obtain ⟨q, _, hq⟩ := List.mem_flatMap.mp hm
  rcases expEntryIssues_loc V q.1 q.2 iss hq with h | ⟨j, h⟩
  · rw [h] at hp
    exact expLoc_ne_projLoc q.1 i hp
  · rw [h] at hp
    exact projLoc_ne_expAchLoc i q.1 j hp.symm

theorem countP_proj_flatMap_self (V : List String) (i : Nat) :
    ∀ (l : List DraftProjEntry) (k : Nat),
      List.countP (fun iss => iss.location == projLoc i)
        ((l.enumFrom k).flatMap (fun p => projEntryIssues V p.1 p.2)) =
      if k ≤ i ∧ i - k < l.length then
        List.countP (fun iss => iss.location == projLoc i)
          (headIssues V (projLoc i) "Project" (l.getD (i - k) default).source_id)
      else 0 := by
  intro l
  induction l with
  | nil => intro k; simp [List.enumFrom]
  | cons e t ih =>
    intro k
    rw [List.enumFrom_cons, List.flatMap_cons, List.countP_append, ih (k + 1)]
    by_cases hk : k = i
    · subst hk
      show List.countP _ (headIssues V (projLoc k) "Project" e.source_id) + _ = _
      rw [if_neg (by omega), if_pos ⟨le_refl _, by simp [Nat.sub_self]⟩]
      simp [Nat.sub_self]
    · rw [show projEntryIssues V k e = headIssues V (projLoc k) "Project" e.source_id from rfl,
        countP_headIssues_ne V _ _ _ _ (fun h => hk (projLoc_inj k i h))]
      by_cases hlt : k < i
      · by_cases hrange : i - (k + 1) < t.length
        · rw [if_pos ⟨by omega, hrange⟩, if_pos ⟨by omega, by simp; omega⟩]
          have : i - k = (i - (k + 1)) + 1 := by omega
          rw [this]
          simp
        · rw [if_neg (by omega), if_neg (by simp; omega)]
      · rw [if_neg (by omega), if_neg (by omega)]

theorem countP_headIssues_self (V : List String) (loc noun : String) (src : Option String) :
    List.countP (fun iss => iss.location == loc) (headIssues V loc noun src) =
      (if missingSrc src = true then 1 else
        match src with
        | some s => if s ∈ V then 0 else 1
        | none => 0) := by
  unfold headIssues
  by_cases h1 : missingSrc src = true
  · rw [if_pos h1, if_pos h1]
    simp
  · rw [if_neg h1, if_neg h1]
    match src with
    | none => rfl
    | some s =>
      dsimp only
      by_cases h2 : s ∈ V
      · rw [if_pos h2, if_pos h2]
        rfl
      · rw [if_neg h2, if_neg h2]
        simp

/-- C3 (amended): structural validation checks exactly the draft's
experience entries (with their dict achievements) and bulleted_projects
entries against the source ids of the selection's experiences and projects:
for each checked entry, a missing source_id yields exactly one issue at that
entry's location (the critical missing_source_id issue), a source_id outside
the experience/project id set yields exactly one issue there (the critical
invalid_source_id issue), and a source_id inside that set yields no issue at
that location. -/
theorem structural_validation_per_entry (d : ResumeDraftD) (sel : ValSelection) :
    (∀ i, i < d.experience.length →
      ((missingSrc (d.experience.getD i default).source_id = true →
        (perform_structural_validation d sel).countP
          (fun iss => iss.location == expLoc i) = 1 ∧
        ValidationIssue.mk "critical" "missing_source_id" (expLoc i)
          "Experience missing source_id field" ∈ perform_structural_validation d sel) ∧
      (∀ s, (d.experience.getD i default).source_id = some s → s ≠ "" →
        s ∉ valid_sources sel →
        (perform_structural_validation d sel).countP
          (fun iss => iss.location == expLoc i) = 1 ∧
        ValidationIssue.mk "critical" "invalid_source_id" (expLoc i)
          ("Invalid source_id: " ++ s) ∈ perform_structural_validation d sel) ∧
      (∀ s, (d.experience.getD i default).source_id = some s → s ≠ "" →
        s ∈ valid_sources sel →
        (perform_structural_validation d sel).countP
          (fun iss => iss.location == expLoc i) = 0))) ∧
    (∀ i, i < d.bulleted_projects.length →
      ((missingSrc (d.bulleted_projects.getD i default).source_id = true →
        (perform_structural_validation d sel).countP
          (fun iss => iss.location == projLoc i) = 1 ∧
        ValidationIssue.mk "critical" "missing_source_id" (projLoc i)
          "Project missing source_id field" ∈ perform_structural_validation d sel) ∧
      (∀ s, (d.bulleted_projects.getD i default).source_id = some s → s ≠ "" →
        s ∉ valid_sources sel →
        (perform_structural_validation d sel).countP
          (fun iss => iss.location == projLoc i) = 1 ∧
        ValidationIssue.mk "critical" "invalid_source_id" (projLoc i)
          ("Invalid source_id: " ++ s) ∈ perform_structural_validation d sel) ∧
      (∀ s, (d.bulleted_projects.getD i default).source_id = some s → s ≠ "" →
        s ∈ valid_sources sel →
        (perform_structural_validation d sel).countP
          (fun iss => iss.location == projLoc i) = 0))) := by
  have hsplit : perform_structural_validation d sel =
      ((d.experience.enumFrom 0).flatMap
        (fun p => expEntryIssues (valid_sources sel) p.1 p.2)) ++
      ((d.bulleted_projects.enumFrom 0).flatMap
        (fun p => projEntryIssues (valid_sources sel) p.1 p.2)) := by
    simp [perform_structural_validation, List.enum_eq_enumFrom]
  constructor
  · intro i hi
    have hcount : (perform_structural_validation d sel).countP
        (fun iss => iss.location == expLoc i) =
        List.countP (fun iss => iss.location == expLoc i)
          (headIssues (valid_sources sel) (expLoc i) "Experience"
            (d.experience.getD i default).source_id) := by
      rw [hsplit, List.countP_append, countP_exp_flatMap,
        countP_proj_flatMap_expLoc, if_pos ⟨Nat.zero_le i, by simpa using hi⟩]
      simp
    have hmemlift : ∀ iss, iss ∈ headIssues (valid_sources sel) (expLoc i) "Experience"
        (d.experience.getD i default).source_id →
        iss ∈ perform_structural_validation d sel := by
      intro iss hmem1
      rw [hsplit]
      apply List.mem_append_left
      apply List.mem_flatMap.mpr
      refine ⟨(i, d.experience.getD i default), ?_, ?_⟩
      · have := mem_enumFrom_getD default d.experience 0 i hi
        simpa using this
      · exact List.mem_append_left _ hmem1
    refine ⟨?_, ?_, ?_⟩
    · intro hmiss
      refine ⟨by rw [hcount, countP_headIssues_self, if_pos hmiss], ?_⟩
      apply hmemlift
      rw [headIssues.eq_def, if_pos hmiss]
      exact List.mem_singleton.mpr rfl
    · intro s hs hsne hsnot
      have hmf : missingSrc (d.experience.getD i default).source_id = false := by
        rw [hs]
        show (s == "") = false
        exact beq_eq_false_iff_ne.mpr hsne
      refine ⟨?_, ?_⟩
      · rw [hcount, countP_headIssues_self, if_neg (by rw [hmf]; exact Bool.false_ne_true), hs]
        dsimp only
        rw [if_neg hsnot]
      · apply hmemlift
        rw [headIssues.eq_def, if_neg (by rw [hmf]; exact Bool.false_ne_true), hs]
        dsimp only
        rw [if_neg hsnot]
        exact List.mem_singleton.mpr rfl
    · intro s hs hsne hsin
      have hmf : missingSrc (d.experience.getD i default).source_id = false := by
        rw [hs]
        show (s == "") = false
        exact beq_eq_false_iff_ne.mpr hsne
      rw [hcount, countP_headIssues_self, if_neg (by rw [hmf]; exact Bool.false_ne_true), hs]
      dsimp only
      rw [if_pos hsin]
  · intro i hi
    have hcount : (perform_structural_validation d sel).countP
        (fun iss => iss.location == projLoc i) =
        List.countP (fun iss => iss.location == projLoc i)
          (headIssues (valid_sources sel) (projLoc i) "Project"
            (d.bulleted_projects.getD i default).source_id) := by
      rw [hsplit, List.countP_append, countP_exp_flatMap_projLoc,
        countP_proj_flatMap_self, if_pos ⟨Nat.zero_le i, by simpa using hi⟩]
      simp
    have hmemlift : ∀ iss, iss ∈ headIssues (valid_sources sel) (projLoc i) "Project"
        (d.bulleted_projects.getD i default).source_id →
        iss ∈ perform_structural_validation d sel := by
      intro iss hmem1
      rw [hsplit]
      apply List.mem_append_right
      apply List.mem_flatMap.mpr
      refine ⟨(i, d.bulleted_projects.getD i default), ?_, ?_⟩
      · have := mem_enumFrom_getD default d.bulleted_projects 0 i hi
        simpa using this
      · exact hmem1
    refine ⟨?_, ?_, ?_⟩
    · intro hmiss
      refine ⟨by rw [hcount, countP_headIssues_self, if_pos hmiss], ?_⟩
      apply hmemlift
      rw [headIssues.eq_def, if_pos hmiss]
      exact List.mem_singleton.mpr rfl
    · intro s hs hsne hsnot
      have hmf : missingSrc (d.bulleted_projects.getD i default).source_id = false := by
        rw [hs]
        show (s == "") = false
        exact beq_eq_false_iff_ne.mpr hsne
      refine ⟨?_, ?_⟩
      · rw [hcount, countP_headIssues_self, if_neg (by rw [hmf]; exact Bool.false_ne_true), hs]
        dsimp only
        rw [if_neg hsnot]
      · apply hmemlift
        rw [headIssues.eq_def, if_neg (by rw [hmf]; exact Bool.false_ne_true), hs]
        dsimp only
        rw [if_neg hsnot]
        exact List.mem_singleton.mpr rfl
    · intro s hs hsne hsin
      have hmf : missingSrc (d.bulleted_projects.getD i default).source_id = false := by
        rw [hs]
        show (s == "") = false
        exact beq_eq_false_iff_ne.mpr hsne
      rw [hcount, countP_headIssues_self, if_neg (by rw [hmf]; exact Bool.false_ne_true), hs]
      dsimp only
      rw [if_pos hsin]

/-- C3 counterexample: (1) a draft work-sample entry with no source_id
produces no issue at all, contradicting the claim for every category; (2) a
draft experience whose source_id appears among the selection's work samples
(so it is present in the content selection) is still flagged
invalid_source_id, because the validator's valid set is built only from the
selection's experiences and projects. -/
theorem structural_validation_not_all_categories :
    (ResumeDraftD.mk [] [] [DraftOtherEntry.mk none] [] []).work_samples.length = 1 ∧
    (perform_structural_validation (ResumeDraftD.mk [] [] [DraftOtherEntry.mk none] [] [])
      (ValSelection.mk [] [] [])) = [] ∧
    "ws1" ∈ (ValSelection.mk [] [] [ValSelItem.mk "ws1"]).selected_work_samples.map
      (fun w => w.source_id) ∧
    perform_structural_validation
      (ResumeDraftD.mk [DraftExpEntry.mk (some "ws1") []] [] [] [] [])
      (ValSelection.mk [] [] [ValSelItem.mk "ws1"]) =
      [ValidationIssue.mk "critical" "invalid_source_id" (expLoc 0)
        "Invalid source_id: ws1"] := by
  refine ⟨rfl, rfl, by decide, by decide⟩

/-- C3 witness: the per-entry characterization applied to a concrete draft
with one experience lacking a source_id. -/
theorem structural_validation_per_entry_witness :
    (perform_structural_validation
      (ResumeDraftD.mk [DraftExpEntry.mk none []] [] [] [] [])
      (ValSelection.mk [ValSelItem.mk "e1"] [] [])).countP
        (fun iss => iss.location == expLoc 0) = 1 ∧
    ValidationIssue.mk "critical" "missing_source_id" (expLoc 0)
      "Experience missing source_id field" ∈ perform_structural_validation
        (ResumeDraftD.mk [DraftExpEntry.mk none []] [] [] [] [])
        (ValSelection.mk [ValSelItem.mk "e1"] [] []) :=
  ((structural_validation_per_entry
    (ResumeDraftD.mk [DraftExpEntry.mk none []] [] [] [] [])
    (ValSelection.mk [ValSelItem.mk "e1"] [] [])).1 0 (by decide)).1 (by decide)

theorem mem_flmRowJs_bounds (a b : Chars) (blo bhi i : Nat) :
    ∀ j ∈ flmRowJs a b blo bhi i, blo ≤ j ∧ j < bhi := by
  intro j hj
  unfold flmRowJs at hj
  have h1 := List.mem_takeWhile_imp hj
  have h2 := (List.takeWhile_sublist _).mem hj
  rw [List.mem_filter] at h2
  simp only [decide_eq_true_eq] at h1 h2
  exact ⟨h2.2, h1⟩

theorem FlmBestInv.mono {alo blo bound bound' bhi : Nat} {t : FlmBest}
    (h : FlmBestInv alo blo bound bhi t) (hb : bound ≤ bound') :
    FlmBestInv alo blo bound' bhi t := by
  obtain ⟨h1, h2, h3, h4⟩ := h
  exact ⟨h1, h2, by omega, h4⟩

theorem flmRowStep_fold_valid (a b : Chars) (alo blo bhi i : Nat) (mOld : Nat → Nat)
    (halo : alo ≤ i)
    (hmOld : ∀ x, mOld x ≤ i - alo ∧ mOld x ≤ x + 1 - blo) :
    ∀ (js : List Nat), (∀ j ∈ js, blo ≤ j ∧ j < bhi) →
    ∀ (nm : Nat → Nat) (best : FlmBest),
      (∀ x, nm x ≤ i + 1 - alo ∧ nm x ≤ x + 1 - blo) →
      FlmBestInv alo blo (i+1) bhi best →
      (∀ x, (js.foldl (flmRowStep mOld i) (nm, best)).1 x ≤ i + 1 - alo ∧
        (js.foldl (flmRowStep mOld i) (nm, best)).1 x ≤ x + 1 - blo) ∧
      FlmBestInv alo blo (i+1) bhi (js.foldl (flmRowStep mOld i) (nm, best)).2 := by
  intro js
  induction js with
  | nil => intro _ nm best hnm hbest; exact ⟨hnm, hbest⟩
  | cons j tail ih =>
    intro hjs nm best hnm hbest
    obtain ⟨hjlo, hjhi⟩ := hjs j (List.mem_cons_self j tail)
    rw [List.foldl_cons]
    have hk : ((if j = 0 then 0 else mOld (j - 1)) + 1) ≤ i + 1 - alo ∧
        ((if j = 0 then 0 else mOld (j - 1)) + 1) ≤ j + 1 - blo := by
      by_cases hj0 : j = 0
      · subst hj0
        rw [if_pos rfl]
        have hblo : blo = 0 := by omega
        omega
      · rw [if_neg hj0]
        have h1 := (hmOld (j - 1)).1
        have h2 := (hmOld (j - 1)).2
        omega
    have hm1 : ∀ x, (flmRowStep mOld i (nm, best) j).1 x ≤ i + 1 - alo ∧
        (flmRowStep mOld i (nm, best) j).1 x ≤ x + 1 - blo := by
      intro x
      unfold flmRowStep
      by_cases hup : best.2.2 < (if j = 0 then 0 else mOld (j - 1)) + 1
      · rw [if_pos hup]
        dsimp only
        by_cases hx : x = j
        · rw [if_pos hx, hx]
          exact hk
        · rw [if_neg hx]
          exact hnm x
      · rw [if_neg hup]
        dsimp only
        by_cases hx : x = j
        · rw [if_pos hx, hx]
          exact hk
        · rw [if_neg hx]
          exact hnm x
    have hm2 : FlmBestInv alo blo (i+1) bhi (flmRowStep mOld i (nm, best) j).2 := by
      unfold flmRowStep
      by_cases hup : best.2.2 < (if j = 0 then 0 else mOld (j - 1)) + 1
      · rw [if_pos hup]
        obtain ⟨hk1, hk2⟩ := hk
        unfold FlmBestInv
        dsimp only
        refine ⟨by omega, by omega, by omega, by omega⟩
      · rw [if_neg hup]
        exact hbest
    have := ih (fun x hx => hjs x (List.mem_cons_of_mem _ hx))
      (flmRowStep mOld i (nm, best) j).1 (flmRowStep mOld i (nm, best) j).2 hm1 hm2
    exact this

theorem flmRows_valid (a b : Chars) (alo blo bhi : Nat) :
    ∀ (n i0 : Nat) (m0 : Nat → Nat) (best0 : FlmBest),
      alo ≤ i0 →
      (∀ x, m0 x ≤ i0 - alo ∧ m0 x ≤ x + 1 - blo) →
      FlmBestInv alo blo i0 bhi best0 →
      (∀ x, (flmRows a b blo bhi (List.range' i0 n) (m0, best0)).1 x ≤ (i0 + n) - alo ∧
        (flmRows a b blo bhi (List.range' i0 n) (m0, best0)).1 x ≤ x + 1 - blo) ∧
      FlmBestInv alo blo (i0 + n) bhi
        (flmRows a b blo bhi (List.range' i0 n) (m0, best0)).2 := by
  intro n
  induction n with
  | zero =>
    intro i0 m0 best0 h1 h2 h3
    unfold flmRows
    simp only [List.range'_zero, List.foldl_nil]
    exact ⟨fun x => ⟨by have := (h2 x).1; omega, (h2 x).2⟩, by simpa using h3⟩
  | succ n ih =>
    intro i0 m0 best0 h1 h2 h3
    rw [List.range'_succ]
    unfold flmRows
    rw [List.foldl_cons]
    have hrow := flmRowStep_fold_valid a b alo blo bhi i0 m0 h1 h2
      (flmRowJs a b blo bhi i0) (mem_flmRowJs_bounds a b blo bhi i0)
      (fun _ => 0) best0 (fun x => ⟨Nat.zero_le _, Nat.zero_le _⟩) (h3.mono (by omega))
    have := ih (i0 + 1)
      ((flmRowJs a b blo bhi i0).foldl (flmRowStep m0 i0) ((fun _ => 0), best0)).1
      ((flmRowJs a b blo bhi i0).foldl (flmRowStep m0 i0) ((fun _ => 0), best0)).2
      (by omega) (fun x => ⟨by have := (hrow.1 x).1; omega, (hrow.1 x).2⟩) hrow.2
    unfold flmRows at this
    have harr : (i0 + 1) + n = i0 + (n + 1) := by omega
    rw [harr] at this
    exact this

theorem extLeft_valid (a b : Chars) (alo blo bnd bhi : Nat) (jr : Bool) :
    ∀ (fuel : Nat) (best : FlmBest), FlmBestInv alo blo bnd bhi best →
      FlmBestInv alo blo bnd bhi (extLeft a b alo blo jr fuel best) := by
  intro fuel
  induction fuel with
  | zero => intro best h; exact h
  | succ f ih =>
    intro best h
    obtain ⟨bi, bj, bs⟩ := best
    rw [extLeft]
    by_cases hc : alo < bi ∧ blo < bj ∧ bJunk b (b.getD (bj - 1) ' ') = jr ∧
        a.getD (bi - 1) ' ' = b.getD (bj - 1) ' '
    · rw [if_pos hc]
      apply ih
      unfold FlmBestInv at h ⊢
      dsimp only at h ⊢
      obtain ⟨h1, h2, h3, h4⟩ := h
      obtain ⟨hc1, hc2, _⟩ := hc
      refine ⟨by omega, by omega, by omega, by omega⟩
    · rw [if_neg hc]
      exact h

theorem extRight_valid (a b : Chars) (alo blo bnd bhi : Nat) (jr : Bool) :
    ∀ (fuel : Nat) (best : FlmBest), FlmBestInv alo blo bnd bhi best →
      FlmBestInv alo blo bnd bhi (extRight a b bnd bhi jr fuel best) := by
  intro fuel
  induction fuel with
  | zero => intro best h; exact h
  | succ f ih =>
    intro best h
    obtain ⟨bi, bj, bs⟩ := best
    rw [extRight]
    by_cases hc : bi + bs < bnd ∧ bj + bs < bhi ∧ bJunk b (b.getD (bj + bs) ' ') = jr ∧
        a.getD (bi + bs) ' ' = b.getD (bj + bs) ' '
    · rw [if_pos hc]
      apply ih
      unfold FlmBestInv at h ⊢
      dsimp only at h ⊢
      obtain ⟨h1, h2, h3, h4⟩ := h
      obtain ⟨hc1, hc2, _⟩ := hc
      refine ⟨by omega, by omega, by omega, by omega⟩
    · rw [if_neg hc]
      exact h

theorem findLongestMatch_valid (a b : Chars) (alo ahi blo bhi : Nat)
    (ha : alo ≤ ahi) (hb : blo ≤ bhi) :
    FlmBestInv alo blo ahi bhi (findLongestMatch a b alo ahi blo bhi) := by
  unfold findLongestMatch
  have hrows := (flmRows_valid a b alo blo bhi (ahi - alo) alo (fun _ => 0) (alo, blo, 0)
    (le_refl _) (fun x => ⟨Nat.zero_le _, Nat.zero_le _⟩)
    ⟨le_refl _, le_refl _, by show alo + 0 ≤ alo; omega, by show blo + 0 ≤ bhi; omega⟩).2
  have harr : alo + (ahi - alo) = ahi := by omega
  rw [harr] at hrows
  exact extRight_valid a b alo blo ahi bhi true _ _
    (extLeft_valid a b alo blo ahi bhi true _ _
      (extRight_valid a b alo blo ahi bhi false _ _
        (extLeft_valid a b alo blo ahi bhi false _ _ hrows)))

theorem matchingSizeAux_le (a b : Chars) :
    ∀ (fuel alo ahi blo bhi : Nat), alo ≤ ahi → blo ≤ bhi →
      matchingSizeAux a b fuel alo ahi blo bhi ≤ ahi - alo ∧
      matchingSizeAux a b fuel alo ahi blo bhi ≤ bhi - blo := by
  intro fuel
  induction fuel with
  | zero => intro alo ahi blo bhi _ _; exact ⟨Nat.zero_le _, Nat.zero_le _⟩
  | succ f ih =>
    intro alo ahi blo bhi ha hb
    rw [matchingSizeAux]
    obtain ⟨h1, h2, h3, h4⟩ := findLongestMatch_valid a b alo ahi blo bhi ha hb
    set t := findLongestMatch a b alo ahi blo bhi with ht
    by_cases hz : t.2.2 = 0
    · rw [if_pos hz]
      exact ⟨Nat.zero_le _, Nat.zero_le _⟩
    · rw [if_neg hz]
      have hl := ih alo t.1 blo t.2.1 h1 h2
      have hr := ih (t.1 + t.2.2) ahi (t.2.1 + t.2.2) bhi h3 h4
      constructor
      · have := hl.1
        have := hr.1
        omega
      · have := hl.2
        have := hr.2
        omega

theorem totalMatches_le (a b : Chars) :
    totalMatches a b ≤ a.length ∧ totalMatches a b ≤ b.length := by
  have := matchingSizeAux_le a b (a.length + 1) 0 a.length 0 b.length
    (Nat.zero_le _) (Nat.zero_le _)
  simpa using this

theorem seqRatio_bounds (a b : Chars) : 0 ≤ seqRatio a b ∧ seqRatio a b ≤ 1 := by
  unfold seqRatio
  by_cases h : a.length + b.length = 0
  · rw [if_pos h]
    norm_num
  · rw [if_neg h]
    rw [Rat.mkRat_eq_div]
    have hpos : (0 : ℚ) < ((a.length + b.length : Nat) : ℚ) := by
      have : 0 < a.length + b.length := Nat.pos_of_ne_zero h
      exact_mod_cast this
    constructor
    · apply div_nonneg
      · positivity
      · push_cast
        push_cast at hpos
        linarith
    · rw [div_le_one (by push_cast; push_cast at hpos; linarith)]
      obtain ⟨hla, hlb⟩ := totalMatches_le a b
      push_cast
      have : 2 * totalMatches a b ≤ a.length + b.length := by omega
      exact_mod_cast this

/-- A nonzero DP run-length entry implies all side conditions of its row and
column. -/
theorem runDP_ne_zero (s : Chars) (al ah : Nat) :
    ∀ i j, runDP s al ah i j ≠ 0 →
      al ≤ i ∧ i < ah ∧ al ≤ j ∧ j < ah ∧ s.getD i ' ' = s.getD j ' ' ∧
        bJunk s (s.getD j ' ') = false := by
  intro i j h
  cases i with
  | zero =>
    rw [runDP] at h
    by_cases hc : al ≤ 0 ∧ 0 < ah ∧ al ≤ j ∧ j < ah ∧ s.getD 0 ' ' = s.getD j ' ' ∧
        bJunk s (s.getD j ' ') = false
    · exact hc
    · rw [if_neg hc] at h
      exact absurd rfl h
  | succ i' =>
    rw [runDP] at h
    by_cases hc : al ≤ i' + 1 ∧ i' + 1 < ah ∧ al ≤ j ∧ j < ah ∧
        s.getD (i' + 1) ' ' = s.getD j ' ' ∧ bJunk s (s.getD j ' ') = false
    · exact hc
    · rw [if_neg hc] at h
      exact absurd rfl h

/-- Step equation of the DP table: under the side conditions, the entry is the
previous-row neighbour plus one (with the Python j == 0 special case). -/
theorem runDP_eq_step (s : Chars) (al ah i j : Nat)
    (h1 : al ≤ i) (h2 : i < ah) (h3 : al ≤ j) (h4 : j < ah)
    (h5 : s.getD i ' ' = s.getD j ' ') (h6 : bJunk s (s.getD j ' ') = false) :
    runDP s al ah i j = (if j = 0 then 0 else mPrev s al ah i (j - 1)) + 1 := by
  cases i with
  | zero =>
    rw [runDP, if_pos ⟨h1, h2, h3, h4, h5, h6⟩]
    by_cases hj : j = 0
    · rw [if_pos hj]
    · rw [if_neg hj]
      simp [mPrev]
  | succ i' =>
    rw [runDP, if_pos ⟨h1, h2, h3, h4, h5, h6⟩]
    by_cases hj : j = 0
    · rw [if_pos hj, if_pos hj]
    · rw [if_neg hj, if_neg hj]
      simp [mPrev]

/-- A diagonal DP entry at an in-range non-junk position is at least 1. -/
theorem runDP_diag_pos (s : Chars) (al ah p : Nat)
    (h1 : al ≤ p) (h2 : p < ah) (h6 : bJunk s (s.getD p ' ') = false) :
    1 ≤ runDP s al ah p p := by
  cases p with
  | zero =>
    rw [runDP, if_pos ⟨h1, h2, h1, h2, rfl, h6⟩]
  | succ p' =>
    rw [runDP, if_pos ⟨h1, h2, h1, h2, rfl, h6⟩, if_neg (Nat.succ_ne_zero p')]
    omega

/-- Diagonal dominance of the self-comparison DP table: every entry is bounded
by both diagonal entries of its row and of its column. -/
theorem runDP_dom (s : Chars) (al ah : Nat) :
    ∀ i j, runDP s al ah i j ≤ runDP s al ah i i ∧
      runDP s al ah i j ≤ runDP s al ah j j := by
  intro i
  induction i with
  | zero =>
    intro j
    by_cases h : runDP s al ah 0 j = 0
    · rw [h]
      exact ⟨Nat.zero_le _, Nat.zero_le _⟩
    · obtain ⟨c1, c2, c3, c4, c5, c6⟩ := runDP_ne_zero s al ah 0 j h
      have hv : runDP s al ah 0 j = 1 := by
        rw [runDP, if_pos ⟨c1, c2, c3, c4, c5, c6⟩]
      have h00 : runDP s al ah 0 0 = 1 := by
        rw [runDP, if_pos ⟨c1, c2, c1, c2, rfl, by rw [c5]; exact c6⟩]
      have hjj : 1 ≤ runDP s al ah j j := runDP_diag_pos s al ah j c3 c4 c6
      exact ⟨by omega, by omega⟩
  | succ i' ih =>
    intro j
    by_cases h : runDP s al ah (i' + 1) j = 0
    · rw [h]
      exact ⟨Nat.zero_le _, Nat.zero_le _⟩
    · obtain ⟨c1, c2, c3, c4, c5, c6⟩ := runDP_ne_zero s al ah (i' + 1) j h
      have c6i : bJunk s (s.getD (i' + 1) ' ') = false := by rw [c5]; exact c6
      have hdd : runDP s al ah (i' + 1) (i' + 1) = runDP s al ah i' i' + 1 := by
        rw [runDP, if_pos ⟨c1, c2, c1, c2, rfl, c6i⟩, if_neg (Nat.succ_ne_zero i')]
        simp only [Nat.add_sub_cancel]
      cases j with
      | zero =>
        have hv : runDP s al ah (i' + 1) 0 = 1 := by
          rw [runDP, if_pos ⟨c1, c2, c3, c4, c5, c6⟩, if_pos rfl]
        have h00 : runDP s al ah 0 0 = 1 := by
          rw [runDP, if_pos ⟨c3, c4, c3, c4, rfl, c6⟩]
        omega
      | succ j' =>
        have hv : runDP s al ah (i' + 1) (j' + 1) = runDP s al ah i' j' + 1 := by
          rw [runDP, if_pos ⟨c1, c2, c3, c4, c5, c6⟩, if_neg (Nat.succ_ne_zero j')]
          simp only [Nat.add_sub_cancel]
        have hjj : runDP s al ah (j' + 1) (j' + 1) = runDP s al ah j' j' + 1 := by
          rw [runDP, if_pos ⟨c3, c4, c3, c4, rfl, c6⟩, if_neg (Nat.succ_ne_zero j')]
          simp only [Nat.add_sub_cancel]
        have ih1 := ih j'
        omega

/-- The previous-row view at the very first row is identically zero. -/
theorem mPrev_start (s : Chars) (al ah : Nat) : ∀ x, mPrev s al ah al x = 0 := by
  intro x
  cases al with
  | zero => rfl
  | succ a' =>
    show runDP s (a' + 1) ah a' x = 0
    by_cases h : runDP s (a' + 1) ah a' x = 0
    · exact h
    · have := (runDP_ne_zero s (a' + 1) ah a' x h).1
      omega

/-- Membership in a strictly sorted list truncated below a bound: takeWhile on
an ascending list keeps exactly the members below the bound. -/
theorem mem_takeWhile_lt_sorted (n : Nat) :
    ∀ (l : List Nat), l.Pairwise (fun x y => x < y) →
      ∀ j, (j ∈ l.takeWhile (fun x => decide (x < n)) ↔ j ∈ l ∧ j < n) := by
  intro l
  induction l with
  | nil => intro _ j; simp
  | cons h t ih =>
    intro hp j
    obtain ⟨hh, ht⟩ := List.pairwise_cons.mp hp
    rw [List.takeWhile_cons]
    by_cases hhn : h < n
    · rw [if_pos (by simpa using hhn)]
      simp only [List.mem_cons, ih ht j]
      constructor
      · rintro (rfl | ⟨hjt, hjn⟩)
        · exact ⟨Or.inl rfl, hhn⟩
        · exact ⟨Or.inr hjt, hjn⟩
      · rintro ⟨rfl | hjt, hjn⟩
        · exact Or.inl rfl
        · exact Or.inr ⟨hjt, hjn⟩
    · rw [if_neg (by simpa using hhn)]
      simp only [List.not_mem_nil, false_iff]
      rintro ⟨hmem, hjn⟩
      rcases List.mem_cons.mp hmem with rfl | hjt
      · exact hhn hjn
      · exact hhn (lt_trans (hh j hjt) hjn)

/-- The filtered b2j candidate list of a row is strictly ascending. -/
theorem pairwise_lt_b2j_filter (a b : Chars) (blo i : Nat) :
    ((b2j b (a.getD i ' ')).filter (fun j => decide (blo ≤ j))).Pairwise
      (fun x y => x < y) := by
  apply List.Pairwise.filter
  unfold b2j
  cases hj : bJunk b (a.getD i ' ') with
  | true => simp [hj]
  | false =>
    rw [if_neg (by simp [hj])]
    apply List.Pairwise.filter
    exact List.pairwise_lt_range b.length

/-- Characterization of the candidate positions of row i when comparing a
sequence with itself. -/
theorem mem_flmRowJs_self (s : Chars) (al ah i j : Nat) :
    j ∈ flmRowJs s s al ah i ↔
      al ≤ j ∧ j < ah ∧ j < s.length ∧ s.getD j ' ' = s.getD i ' ' ∧
        bJunk s (s.getD i ' ') = false := by
  unfold flmRowJs
  rw [mem_takeWhile_lt_sorted ah _ (pairwise_lt_b2j_filter s s al i) j,
    List.mem_filter]
  unfold b2j
  cases hj : bJunk s (s.getD i ' ') with
  | true => simp [hj]
  | false =>
    rw [if_neg (by simp [hj])]
    simp only [List.mem_filter, List.mem_range, decide_eq_true_iff, beq_iff_eq]
    constructor
    · rintro ⟨⟨⟨hlen, heq⟩, hlo⟩, hhi⟩
      exact ⟨hlo, hhi, hlen, heq, by trivial⟩
    · rintro ⟨hlo, hhi, hlen, heq, _⟩
      exact ⟨⟨⟨hlen, heq⟩, hlo⟩, hhi⟩

/-- A nonzero self-comparison DP entry lies in the candidate list of its
row. -/
theorem runDP_mem_flmRowJs_self (s : Chars) (al ah : Nat) (hah : ah ≤ s.length)
    (i j : Nat) (h : runDP s al ah i j ≠ 0) : j ∈ flmRowJs s s al ah i := by
  obtain ⟨c1, c2, c3, c4, c5, c6⟩ := runDP_ne_zero s al ah i j h
  rw [mem_flmRowJs_self]
  exact ⟨c3, c4, by omega, c5.symm, by rw [c5]; exact c6⟩

/-- Row-fold lemma for the self-comparison DP loop: processing one row keeps
the best triple on the diagonal, computes exactly the DP row, dominates every
table entry up to the current row, never shrinks, and changes the best triple
only by strict improvement. -/
theorem diagRowFold (s : Chars) (al ah : Nat) (i : Nat)
    (hial : al ≤ i) (hiah : i < ah)
    (mOld : Nat → Nat) (hmOld : ∀ x, mOld x = mPrev s al ah i x) :
    ∀ (js : List Nat), js.Pairwise (fun x y => x < y) →
      (∀ j, j ∈ js → j ∈ flmRowJs s s al ah i) →
      ∀ (nm : Nat → Nat) (best : FlmBest),
      (∀ x, x ∉ js → nm x = runDP s al ah i x) →
      (∀ x, x ∉ js → runDP s al ah i x ≤ best.2.2) →
      best.1 = best.2.1 →
      (∀ i2 x, i2 < i → runDP s al ah i2 x ≤ best.2.2) →
      (runDP s al ah i i ≤ best.2.2 ∨ i ∈ js) →
      (∀ x, (js.foldl (flmRowStep mOld i) (nm, best)).1 x = runDP s al ah i x) ∧
      (js.foldl (flmRowStep mOld i) (nm, best)).2.1 =
        (js.foldl (flmRowStep mOld i) (nm, best)).2.2.1 ∧
      (∀ i2 x, i2 ≤ i →
        runDP s al ah i2 x ≤ (js.foldl (flmRowStep mOld i) (nm, best)).2.2.2) ∧
      best.2.2 ≤ (js.foldl (flmRowStep mOld i) (nm, best)).2.2.2 ∧
      ((js.foldl (flmRowStep mOld i) (nm, best)).2.2.2 = 0 →
        (js.foldl (flmRowStep mOld i) (nm, best)).2 = best) := by
  intro js
  induction js with
  | nil =>
    intro _ _ nm best hnm hpart hdiag hprev _
    refine ⟨fun x => hnm x (List.not_mem_nil x), hdiag, ?_, le_refl _, fun _ => rfl⟩
    intro i2 x hi2
    rcases Nat.lt_or_ge i2 i with h | h
    · exact hprev i2 x h
    · have : i2 = i := by omega
      subst this
      exact hpart x (List.not_mem_nil x)
  | cons j tail ih =>
    intro hp hsub nm best hnm hpart hdiag hprev hcover
    obtain ⟨hhead, hptail⟩ := List.pairwise_cons.mp hp
    have hjmem := hsub j (List.mem_cons_self j tail)
    obtain ⟨d1, d2, d3, d4, d5⟩ := (mem_flmRowJs_self s al ah i j).mp hjmem
    have d6 : bJunk s (s.getD j ' ') = false := by rw [d4]; exact d5
    have hkval : runDP s al ah i j = (if j = 0 then 0 else mOld (j - 1)) + 1 := by
      rw [runDP_eq_step s al ah i j hial hiah d1 d2 d4.symm d6]
      by_cases hj0 : j = 0
      · rw [if_pos hj0, if_pos hj0]
      · rw [if_neg hj0, if_neg hj0, hmOld]
    have hvpos : 0 < runDP s al ah i j := by rw [hkval]; omega
    rw [List.foldl_cons]
    have hstep1 : ∀ x, (flmRowStep mOld i (nm, best) j).1 x =
        if x = j then runDP s al ah i j else nm x := by
      intro x
      unfold flmRowStep
      by_cases hup : best.2.2 < (if j = 0 then 0 else mOld (j - 1)) + 1
      · rw [if_pos hup]
        dsimp only
        rw [hkval]
      · rw [if_neg hup]
        dsimp only
        rw [hkval]
    have hstep2 : (flmRowStep mOld i (nm, best) j).2 =
        if best.2.2 < runDP s al ah i j
        then (i + 1 - runDP s al ah i j, j + 1 - runDP s al ah i j,
          runDP s al ah i j)
        else best := by
      unfold flmRowStep
      dsimp only
      rw [← hkval]
      by_cases hup : best.2.2 < runDP s al ah i j
      · rw [if_pos hup, if_pos hup]
      · rw [if_neg hup, if_neg hup]
    have hnoup : j ≠ i → runDP s al ah i j ≤ best.2.2 := by
      intro hne
      rcases Nat.lt_or_ge j i with hlt | hge
      · exact le_trans (runDP_dom s al ah i j).2 (hprev j j hlt)
      · have hgt : i < j := by omega
        rcases hcover with hc | hc
        · exact le_trans (runDP_dom s al ah i j).1 hc
        · rcases List.mem_cons.mp hc with heq | hct
          · omega
          · exact absurd (hhead i hct) (by omega)
    have hsub' : ∀ x, x ∈ tail → x ∈ flmRowJs s s al ah i :=
      fun x hx => hsub x (List.mem_cons_of_mem j hx)
    have hnm' : ∀ x, x ∉ tail → (flmRowStep mOld i (nm, best) j).1 x =
        runDP s al ah i x := by
      intro x hx
      rw [hstep1]
      by_cases hxj : x = j
      · rw [if_pos hxj, hxj]
      · rw [if_neg hxj]
        exact hnm x (by
          intro hmem
          rcases List.mem_cons.mp hmem with heq | ht
          · exact hxj heq
          · exact hx ht)
    by_cases hup : best.2.2 < runDP s al ah i j
    · have hji : j = i := by
        by_contra hne
        exact absurd (hnoup hne) (by omega)
      subst hji
      have hp2 : (flmRowStep mOld j (nm, best) j).2 =
          (j + 1 - runDP s al ah j j, j + 1 - runDP s al ah j j,
            runDP s al ah j j) := by
        rw [hstep2, if_pos hup]
      have happ := ih hptail hsub'
        (flmRowStep mOld j (nm, best) j).1 (flmRowStep mOld j (nm, best) j).2
        hnm'
        (by
          intro x hx
          rw [hp2]
          show runDP s al ah j x ≤ runDP s al ah j j
          exact (runDP_dom s al ah j x).1)
        (by rw [hp2])
        (by
          intro i2 x hi2
          rw [hp2]
          show runDP s al ah i2 x ≤ runDP s al ah j j
          exact le_trans (hprev i2 x hi2) (le_of_lt hup))
        (Or.inl (by rw [hp2]))
      have hsz : (flmRowStep mOld j (nm, best) j).2.2.2 = runDP s al ah j j := by
        rw [hp2]
      refine ⟨happ.1, happ.2.1, happ.2.2.1, ?_, ?_⟩
      · have hb : best.2.2 ≤ (flmRowStep mOld j (nm, best) j).2.2.2 := by
          rw [hsz]
          exact le_of_lt hup
        exact le_trans hb happ.2.2.2.1
      · intro h0
        have h0e : (List.foldl (flmRowStep mOld j)
            ((flmRowStep mOld j (nm, best) j).1,
              (flmRowStep mOld j (nm, best) j).2) tail).2.2.2 = 0 := h0
        have h4 := happ.2.2.2.1
        omega
    · have hle : runDP s al ah i j ≤ best.2.2 := by omega
      have hp2 : (flmRowStep mOld i (nm, best) j).2 = best := by
        rw [hstep2, if_neg hup]
      have happ := ih hptail hsub'
        (flmRowStep mOld i (nm, best) j).1 (flmRowStep mOld i (nm, best) j).2
        hnm'
        (by
          intro x hx
          rw [hp2]
          by_cases hxj : x = j
          · rw [hxj]
            exact hle
          · exact hpart x (by
              intro hmem
              rcases List.mem_cons.mp hmem with heq | ht
              · exact hxj heq
              · exact hx ht))
        (by rw [hp2]; exact hdiag)
        (by intro i2 x hi2; rw [hp2]; exact hprev i2 x hi2)
        (by
          rcases hcover with hc | hc
          · exact Or.inl (by rw [hp2]; exact hc)
          · rcases List.mem_cons.mp hc with heq | hct
            · refine Or.inl ?_
              rw [hp2]
              rw [heq] at hle ⊢
              exact hle
            · exact Or.inr hct)
      refine ⟨happ.1, happ.2.1, happ.2.2.1, ?_, ?_⟩
      · have hb : best.2.2 ≤ (flmRowStep mOld i (nm, best) j).2.2.2 := by
          rw [hp2]
        exact le_trans hb happ.2.2.2.1
      · intro h0
        exact (happ.2.2.2.2 h0).trans hp2

/-- The candidate list of a row is strictly ascending. -/
theorem pairwise_lt_flmRowJs (s : Chars) (al ah i : Nat) :
    (flmRowJs s s al ah i).Pairwise (fun x y => x < y) := by
  unfold flmRowJs
  exact (pairwise_lt_b2j_filter s s al i).sublist (List.takeWhile_sublist _)

/-- Rows lemma for the self-comparison DP loop: after processing rows
[i0, i0+n) the best triple is diagonal, dominates every processed table entry,
never shrinks, and is unchanged when its size is zero. -/
theorem diagRows (s : Chars) (al ah : Nat) (hah : ah ≤ s.length) :
    ∀ (n : Nat) (i0 : Nat) (m0 : Nat → Nat) (best0 : FlmBest),
      al ≤ i0 → i0 + n ≤ ah →
      (∀ x, m0 x = mPrev s al ah i0 x) →
      best0.1 = best0.2.1 →
      (∀ i2 x, i2 < i0 → runDP s al ah i2 x ≤ best0.2.2) →
      (flmRows s s al ah (List.range' i0 n) (m0, best0)).2.1 =
        (flmRows s s al ah (List.range' i0 n) (m0, best0)).2.2.1 ∧
      (∀ i2 x, i2 < i0 + n →
        runDP s al ah i2 x ≤ (flmRows s s al ah (List.range' i0 n) (m0, best0)).2.2.2) ∧
      best0.2.2 ≤ (flmRows s s al ah (List.range' i0 n) (m0, best0)).2.2.2 ∧
      ((flmRows s s al ah (List.range' i0 n) (m0, best0)).2.2.2 = 0 →
        (flmRows s s al ah (List.range' i0 n) (m0, best0)).2 = best0) := by
  intro n
  induction n with
  | zero =>
    intro i0 m0 best0 h1 h2 h3 h4 h5
    unfold flmRows
    simp only [List.range'_zero, List.foldl_nil]
    exact ⟨h4, fun i2 x hi2 => h5 i2 x (by omega), le_refl _, fun _ => by trivial⟩
  | succ n ihn =>
    intro i0 m0 best0 h1 h2 h3 h4 h5
    have hi0ah : i0 < ah := by omega
    have hzmem : ∀ x, x ∉ flmRowJs s s al ah i0 → runDP s al ah i0 x = 0 := by
      intro x hx
      by_cases h : runDP s al ah i0 x = 0
      · exact h
      · exact absurd (runDP_mem_flmRowJs_self s al ah hah i0 x h) hx
    have hrow := diagRowFold s al ah i0 h1 hi0ah m0 h3
      (flmRowJs s s al ah i0) (pairwise_lt_flmRowJs s al ah i0)
      (fun j hj => hj) (fun _ => 0) best0
      (fun x hx => (hzmem x hx).symm)
      (fun x hx => by rw [hzmem x hx]; exact Nat.zero_le _)
      h4 h5
      (by
        by_cases h : runDP s al ah i0 i0 = 0
        · exact Or.inl (by rw [h]; exact Nat.zero_le _)
        · exact Or.inr (runDP_mem_flmRowJs_self s al ah hah i0 i0 h))
    have hrest := ihn (i0 + 1)
      ((flmRowJs s s al ah i0).foldl (flmRowStep m0 i0) ((fun _ => 0), best0)).1
      ((flmRowJs s s al ah i0).foldl (flmRowStep m0 i0) ((fun _ => 0), best0)).2
      (by omega) (by omega)
      (fun x => hrow.1 x)
      hrow.2.1
      (fun i2 x hi2 => hrow.2.2.1 i2 x (by omega))
    have hsplit : flmRows s s al ah (List.range' i0 (n + 1)) (m0, best0) =
        flmRows s s al ah (List.range' (i0 + 1) n)
          (((flmRowJs s s al ah i0).foldl (flmRowStep m0 i0) ((fun _ => 0), best0)).1,
           ((flmRowJs s s al ah i0).foldl (flmRowStep m0 i0) ((fun _ => 0), best0)).2) := by
      rw [List.range'_succ]
      rfl
    rw [hsplit]
    refine ⟨hrest.1, fun i2 x hi2 => hrest.2.1 i2 x (by omega),
      le_trans hrow.2.2.2.1 hrest.2.2.1, ?_⟩
    intro h0
    rw [hrest.2.2.2 h0]
    have hmono := hrest.2.2.1
    exact hrow.2.2.2.2 (by omega)

/-- Leftward extension preserves a diagonal best triple when comparing a
sequence with itself. -/
theorem extLeft_diag (s : Chars) (alo blo : Nat) (jr : Bool) :
    ∀ (fuel : Nat) (t : FlmBest), t.1 = t.2.1 →
      (extLeft s s alo blo jr fuel t).1 = (extLeft s s alo blo jr fuel t).2.1 := by
  intro fuel
  induction fuel with
  | zero => intro t h; exact h
  | succ f ih =>
    intro t h
    obtain ⟨bi, bj, bs⟩ := t
    have hbij : bi = bj := h
    subst hbij
    rw [extLeft]
    by_cases hc : alo < bi ∧ blo < bi ∧ bJunk s (s.getD (bi - 1) ' ') = jr ∧
        s.getD (bi - 1) ' ' = s.getD (bi - 1) ' '
    · rw [if_pos hc]
      exact ih (bi - 1, bi - 1, bs + 1) rfl
    · rw [if_neg hc]

/-- Rightward extension preserves a diagonal best triple when comparing a
sequence with itself. -/
theorem extRight_diag (s : Chars) (ahi bhi : Nat) (jr : Bool) :
    ∀ (fuel : Nat) (t : FlmBest), t.1 = t.2.1 →
      (extRight s s ahi bhi jr fuel t).1 = (extRight s s ahi bhi jr fuel t).2.1 := by
  intro fuel
  induction fuel with
  | zero => intro t h; exact h
  | succ f ih =>
    intro t h
    obtain ⟨bi, bj, bs⟩ := t
    have hbij : bi = bj := h
    subst hbij
    rw [extRight]
    by_cases hc : bi + bs < ahi ∧ bi + bs < bhi ∧ bJunk s (s.getD (bi + bs) ' ') = jr ∧
        s.getD (bi + bs) ' ' = s.getD (bi + bs) ' '
    · rw [if_pos hc]
      exact ih (bi, bi, bs + 1) rfl
    · rw [if_neg hc]

/-- Leftward extension never shrinks the match size. -/
theorem extLeft_size_le (a b : Chars) (alo blo : Nat) (jr : Bool) :
    ∀ (fuel : Nat) (t : FlmBest), t.2.2 ≤ (extLeft a b alo blo jr fuel t).2.2 := by
  intro fuel
  induction fuel with
  | zero => intro t; exact le_refl _
  | succ f ih =>
    intro t
    obtain ⟨bi, bj, bs⟩ := t
    rw [extLeft]
    by_cases hc : alo < bi ∧ blo < bj ∧ bJunk b (b.getD (bj - 1) ' ') = jr ∧
        a.getD (bi - 1) ' ' = b.getD (bj - 1) ' '
    · rw [if_pos hc]
      have := ih (bi - 1, bj - 1, bs + 1)
      have hb : ((bi - 1 : Nat), bj - 1, bs + 1).2.2 = bs + 1 := rfl
      show bs ≤ _
      omega
    · rw [if_neg hc]

/-- Rightward extension never shrinks the match size. -/
theorem extRight_size_le (a b : Chars) (ahi bhi : Nat) (jr : Bool) :
    ∀ (fuel : Nat) (t : FlmBest), t.2.2 ≤ (extRight a b ahi bhi jr fuel t).2.2 := by
  intro fuel
  induction fuel with
  | zero => intro t; exact le_refl _
  | succ f ih =>
    intro t
    obtain ⟨bi, bj, bs⟩ := t
    rw [extRight]
    by_cases hc : bi + bs < ahi ∧ bj + bs < bhi ∧ bJunk b (b.getD (bj + bs) ' ') = jr ∧
        a.getD (bi + bs) ' ' = b.getD (bj + bs) ' '
    · rw [if_pos hc]
      have := ih (bi, bj, bs + 1)
      have hb : ((bi : Nat), bj, bs + 1).2.2 = bs + 1 := rfl
      show bs ≤ _
      omega
    · rw [if_neg hc]

/-- Leftward extension of a best triple already starting at alo is the
identity. -/
theorem extLeft_fix_alo (a b : Chars) (alo blo : Nat) (jr : Bool) :
    ∀ (fuel : Nat) (bj bs : Nat),
      extLeft a b alo blo jr fuel (alo, bj, bs) = (alo, bj, bs) := by
  intro fuel bj bs
  cases fuel with
  | zero => rfl
  | succ f =>
    rw [extLeft, if_neg]
    intro hc
    exact absurd hc.1 (lt_irrefl alo)

/-- The non-junk rightward extension is the identity when the next b-position
holds a junk character. -/
theorem extRight_nonjunk_noop (a b : Chars) (ahi bhi : Nat) :
    ∀ (fuel : Nat) (bi bj bs : Nat),
      bJunk b (b.getD (bj + bs) ' ') = true →
      extRight a b ahi bhi false fuel (bi, bj, bs) = (bi, bj, bs) := by
  intro fuel bi bj bs hjunk
  cases fuel with
  | zero => rfl
  | succ f =>
    rw [extRight, if_neg]
    intro hc
    rw [hjunk] at hc
    exact absurd hc.2.2.1 (by simp)

/-- The junk rightward extension strictly grows a zero-size diagonal triple at
a junk in-range position. -/
theorem extRight_junk_start_pos (s : Chars) (al ah f : Nat) (hlt : al < ah)
    (hjunk : bJunk s (s.getD al ' ') = true) :
    0 < (extRight s s ah ah true (f + 1) (al, al, 0)).2.2 := by
  rw [extRight, if_pos ⟨by omega, by omega, by simpa using hjunk, rfl⟩]
  have h1 := extRight_size_le s s ah ah true f (al, al, 0 + 1)
  have h2 : ((al : Nat), al, 0 + 1).2.2 = 1 := rfl
  omega

/-- find_longest_match of a sequence against itself on equal slices returns a
diagonal match, of positive size whenever the slice is non-empty. -/
theorem flm_refl_spec (s : Chars) (al ah : Nat) (hle : al ≤ ah)
    (hah : ah ≤ s.length) :
    (findLongestMatch s s al ah al ah).1 = (findLongestMatch s s al ah al ah).2.1 ∧
    (al < ah → 0 < (findLongestMatch s s al ah al ah).2.2) := by
  have hB := diagRows s al ah hah (ah - al) al (fun _ => 0) (al, al, 0)
    (le_refl al) (by omega)
    (fun x => (mPrev_start s al ah x).symm) rfl
    (by
      intro i2 x hi2
      show runDP s al ah i2 x ≤ 0
      by_cases h : runDP s al ah i2 x = 0
      · omega
      · have := (runDP_ne_zero s al ah i2 x h).1
        omega)
  simp only [findLongestMatch]
  generalize hBdef : (flmRows s s al ah (List.range' al (ah - al))
    ((fun _ => 0), (al, al, 0))).2 = B at hB ⊢
  obtain ⟨bi, bj, bsz⟩ := B
  have hbij : bi = bj := hB.1
  subst hbij
  constructor
  · exact extRight_diag s ah ah true _ _
      (extLeft_diag s al al true _ _
        (extRight_diag s ah ah false _ _
          (extLeft_diag s al al false _ _ rfl)))
  · intro hlt
    by_cases hz : bsz = 0
    · subst hz
      have hba : ((bi : Nat), bi, 0) = ((al : Nat), al, 0) := hB.2.2.2 rfl
      have hbia : al = bi := by
        have := congrArg (fun t => t.1) hba
        simpa using this.symm
      subst hbia
      have hjunk : bJunk s (s.getD al ' ') = true := by
        cases h : bJunk s (s.getD al ' ') with
        | true => rfl
        | false =>
          have h1 := runDP_diag_pos s al ah al (le_refl al) hlt h
          have h2 := hB.2.1 al al (by omega)
          have h3 : ((al : Nat), al, 0).2.2 = 0 := rfl
          omega
      rw [extLeft_fix_alo s s al al false _ al 0,
        extRight_nonjunk_noop s s ah ah _ al al 0 (by simpa using hjunk),
        extLeft_fix_alo s s al al true _ al 0]
      exact extRight_junk_start_pos s al ah ah hlt hjunk
    · have c1 : bsz ≤ (extLeft s s al al false ((bi, bi, bsz).1 + 1)
          ((bi : Nat), bi, bsz)).2.2 :=
        extLeft_size_le s s al al false ((bi, bi, bsz).1 + 1) (bi, bi, bsz)
      have c2 := extRight_size_le s s ah ah false (ah + 1)
        (extLeft s s al al false ((bi, bi, bsz).1 + 1) ((bi : Nat), bi, bsz))
      have c3 := extLeft_size_le s s al al true
        ((extRight s s ah ah false (ah + 1)
          (extLeft s s al al false ((bi, bi, bsz).1 + 1) ((bi : Nat), bi, bsz))).1 + 1)
        (extRight s s ah ah false (ah + 1)
          (extLeft s s al al false ((bi, bi, bsz).1 + 1) ((bi : Nat), bi, bsz)))
      have c4 := extRight_size_le s s ah ah true (ah + 1)
        (extLeft s s al al true
          ((extRight s s ah ah false (ah + 1)
            (extLeft s s al al false ((bi, bi, bsz).1 + 1) ((bi : Nat), bi, bsz))).1 + 1)
          (extRight s s ah ah false (ah + 1)
            (extLeft s s al al false ((bi, bi, bsz).1 + 1) ((bi : Nat), bi, bsz))))
      omega

/-- The matching-block total of a sequence against itself covers the whole
symmetric interval, given enough fuel. -/
theorem matchingSizeAux_refl (s : Chars) :
    ∀ (f al ah : Nat), al ≤ ah → ah ≤ s.length → ah - al < f →
      matchingSizeAux s s f al ah al ah = ah - al := by
  intro f
  induction f with
  | zero => intro al ah h1 h2 h3; omega
  | succ f ih =>
    intro al ah h1 h2 h3
    obtain ⟨hdiag, hpos⟩ := flm_refl_spec s al ah h1 h2
    have hv := findLongestMatch_valid s s al ah al ah h1 h1
    simp only [matchingSizeAux]
    generalize hgen : findLongestMatch s s al ah al ah = t at hdiag hpos hv ⊢
    obtain ⟨ti, tj, tk⟩ := t
    have htij : ti = tj := hdiag
    subst htij
    have v1 : al ≤ ti := hv.1
    have v3 : ti + tk ≤ ah := hv.2.2.1
    dsimp only
    rcases Nat.lt_or_ge al ah with hlt | hge
    · have hp : 0 < tk := hpos hlt
      rw [if_neg (by omega)]
      rw [ih al ti (by omega) (by omega) (by omega),
        ih (ti + tk) ah (by omega) h2 (by omega)]
      omega
    · rw [if_pos (by omega)]
      omega

/-- The total matching size of a sequence against itself is its length. -/
theorem totalMatches_refl (s : Chars) : totalMatches s s = s.length := by
  unfold totalMatches
  have := matchingSizeAux_refl s (s.length + 1) 0 s.length (Nat.zero_le _)
    (le_refl _) (by omega)
  simpa using this

/-- The SequenceMatcher ratio of a sequence with itself is 1. -/
theorem seqRatio_refl (s : Chars) : seqRatio s s = 1 := by
  unfold seqRatio
  by_cases h : s.length + s.length = 0
  · rw [if_pos h]
  · rw [if_neg h, totalMatches_refl]
    rw [Rat.mkRat_eq_div]
    have hnz : ((s.length + s.length : Nat) : ℚ) ≠ 0 := by
      exact_mod_cast h
    rw [div_eq_one_iff_eq hnz]
    push_cast
    ring

set_option maxRecDepth 8000 in
/-- C8 counterexample: the similarity function of the Deduplicator is not
symmetric.  difflib junk handling is asymmetric in its arguments: comparing
"aba" against "babba" yields 3/4 while the swapped comparison yields 1/2. -/
theorem calculate_similarity_not_symmetric :
    calculate_similarity "aba" "babba" = mkRat 3 4 ∧
    calculate_similarity "babba" "aba" = mkRat 1 2 ∧
    calculate_similarity "aba" "babba" ≠ calculate_similarity "babba" "aba" := by
  refine ⟨by decide, by decide, by decide⟩

/-- C8 (amended): the similarity function is reflexive — every string, after
lower-casing and stripping, compares to itself with ratio exactly 1 — and
every similarity value lies in [0, 1]; symmetry however does not hold (see
the counterexample). -/
theorem calculate_similarity_reflexive_bounded :
    (∀ t : String, calculate_similarity t t = 1) ∧
    (∀ a b : String, 0 ≤ calculate_similarity a b ∧ calculate_similarity a b ≤ 1) := by
  constructor
  · intro t
    unfold calculate_similarity
    exact seqRatio_refl _
  · intro a b
    unfold calculate_similarity
    exact seqRatio_bounds _ _

end ResumeTailor
